import Mathlib

/-! Sensor dashboard (`src/App.js`): state, event handlers, range filter, statistics

A shallow embedding of the `Dashboard` component of `src/App.js`:

* the decoded JSON values the handlers receive (`JVal`), with the JavaScript
  coercions the code relies on (truthiness, property access, `new Date`,
  relational comparison of dates, `+`, `Math.min`, `Math.max`, `toFixed(1)`);
* the component state (`State`) and one function per handler
  (`onmessage`, `fetchData`, `filterData`, `handleStartDateChange`,
  `handleEndDateChange`) and `calculateStats`.

A JSON number is kept as the rational its text denotes.  The statistics compute
in binary64: every number is read as the nearest binary64 value, and every `+` and
`/` rounds to nearest, ties to even, with `NaN` and the infinities (`F64`).  The
sign of zero is not represented.  The conversions the language defines on strings
(`Date.parse`, `Number::toString`, `StringToNumber`, `toString` of an array or
object) are parameters.
-/

namespace IotReact

/-! ## Values -/

/-- A decoded JSON value, or `undefined` (what reading an absent property gives).
An object is the list of its key/value pairs as decoded (keys distinct); a number
is the rational its text denotes (arithmetic reads it through `roundF64`). -/
inductive JVal where
  | undefined : JVal
  | null : JVal
  | bool (b : Bool) : JVal
  | num (q : ℚ) : JVal
  | str (s : String) : JVal
  | arr (xs : List JVal) : JVal
  | obj (kvs : List (String × JVal)) : JVal

/-- The way an evaluation can stop: a thrown `TypeError`. -/
inductive Fault where
  | typeError : Fault
  deriving DecidableEq, Repr

/-- `ToBoolean`: `undefined`, `null`, `false`, `0` and the empty string are falsy,
everything else (arrays and objects included, also empty ones) is truthy. -/
def truthy : JVal → Bool
  | .undefined => false
  | .null => false
  | .bool b => b
  | .num q => decide (q ≠ 0)
  | .str s => decide (s ≠ "")
  | .arr _ => true
  | .obj _ => true

/-- Property read `v.k` / `v[k]` for the names the program reads (`history`,
`temperature`, `humidity`, `lightLevel`, `status`, `timestamp`): a `TypeError`
on `undefined` and `null`, the stored value or `undefined` on an object, and
`undefined` on every other value (none of these names is inherited). -/
def getProp (v : JVal) (k : String) : Except Fault JVal :=
  match v with
  | .undefined => .error .typeError
  | .null => .error .typeError
  | .obj kvs => .ok ((kvs.lookup k).getD .undefined)
  | _ => .ok .undefined

/-- The time value of a `Date` object: milliseconds since the epoch, or
`none` for an invalid date (time value `NaN`).  A `null` window bound (a cleared
picker) is compared as the number `0`, so it is represented by `some 0`. -/
abbrev JSDate := Option Int

/-- `TimeClip`: a number beyond 8.64e15 in magnitude gives an invalid date,
any other is truncated toward zero. -/
def timeClip (q : ℚ) : JSDate :=
  if |q| ≤ 8640000000000000 then some (Int.tdiv q.num (q.den : Int)) else none

/-- `new Date(v)` for a single argument.  For a string, an array or an object
the argument is converted to a string and handed to `Date.parse`, whose result
depends on the implementation: that conversion is the parameter `parse`. -/
def newDate (parse : JVal → JSDate) (v : JVal) : JSDate :=
  match v with
  | .undefined => none
  | .null => some 0
  | .bool b => some (if b then 1 else 0)
  | .num q => timeClip q
  | .str s => parse (.str s)
  | .arr xs => parse (.arr xs)
  | .obj kvs => parse (.obj kvs)

/-- The comparison `a >= b` of two dates: numeric on the time values, false when
either is `NaN`. -/
def dateGe (a b : JSDate) : Bool :=
  match a, b with
  | some x, some y => decide (y ≤ x)
  | _, _ => false

/-- The comparison `a <= b` of two dates. -/
def dateLe (a b : JSDate) : Bool :=
  match a, b with
  | some x, some y => decide (x ≤ y)
  | _, _ => false

/-! ## State -/

/-- The `currentData` state: the three metric values of the last live frame. -/
structure LiveData where
  temperature : JVal
  humidity : JVal
  lightLevel : JVal

/-- The state of `Dashboard` (its seven `useState` cells). -/
structure State where
  currentData : LiveData
  history : JVal
  filteredHistory : List JVal
  loading : Bool
  startDate : JSDate
  endDate : JSDate
  sensorStatus : JVal

/-- The initial state; `now1` and `now2` are the two `new Date()` readings. -/
def initialState (now1 now2 : Int) : State where
  currentData := ⟨.num 0, .num 0, .num 0⟩
  history := .arr []
  filteredHistory := []
  loading := false
  startDate := some now1
  endDate := some now2
  sensorStatus := .obj [("dht22", .str "inactive"), ("ldr", .str "inactive")]

/-! ## Range filter -/

/-- The callback of `data.filter` in `filterData`:
`new Date(item.timestamp)` compared with both bounds. -/
def inRange (parse : JVal → JSDate) (start stop : JSDate) (item : JVal) :
    Except Fault Bool := do
  let ts ← getProp item "timestamp"
  let timestamp := newDate parse ts
  pure (dateGe timestamp start && dateLe timestamp stop)

/-- `Array.prototype.filter`: the elements are visited in index order, the kept
ones are appended in that order; a throwing callback aborts the whole call. -/
def arrayFilter (p : JVal → Except Fault Bool) : List JVal → Except Fault (List JVal)
  | [] => pure []
  | x :: xs => do
    let keep ← p x
    let rest ← arrayFilter p xs
    pure (if keep then x :: rest else rest)

/-- `filterData(data, start, end)`: filters and stores the result in
`filteredHistory` (`stop` is the source's `end`).  `data.filter` throws when
`data` is not an array. -/
def filterData (parse : JVal → JSDate) (s : State) (data : JVal) (start stop : JSDate) :
    Except Fault State :=
  match data with
  | .arr xs => do
    let filteredData ← arrayFilter (inRange parse start stop) xs
    pure { s with filteredHistory := filteredData }
  | _ => .error .typeError

/-! ## Handlers -/

/-- The body of `ws.onmessage` on the decoded frame `data`.  The first property
read throws when `data` is `null`; no setter has run by then. -/
def onmessageBody (s : State) (data : JVal) : Except Fault State := do
  let history ← getProp data "history"
  let s1 ← (if truthy history then
      pure { s with history := history }
    else do
      let temperature ← getProp data "temperature"
      let humidity ← getProp data "humidity"
      let lightLevel ← getProp data "lightLevel"
      if truthy temperature && truthy humidity && truthy lightLevel then
        pure { s with currentData := ⟨temperature, humidity, lightLevel⟩ }
      else
        pure s : Except Fault State)
  let status ← getProp data "status"
  if truthy status then
    pure { s1 with sensorStatus := status }
  else
    pure s1

/-- The handler `ws.onmessage`.  `frame` is the result of `JSON.parse(event.data)`,
`none` when the text is not JSON (the handler then throws before any setter).
A throw inside the body happens before any setter, so the state is kept. -/
def onmessage (s : State) (frame : Option JVal) : State :=
  match frame with
  | none => s
  | some data =>
    match onmessageBody s data with
    | .ok s1 => s1
    | .error _ => s

/-- What the two awaits of `fetchData` deliver: the request rejects, the body
fails to decode, or the body decodes to `data`. -/
inductive PullOutcome where
  | rejected : PullOutcome
  | undecodable : PullOutcome
  | decoded (data : JVal) : PullOutcome

/-- The part of `fetchData` after the awaits, run on the state `s` current at
that time with the window `start`, `stop` captured when `fetchData` was called:
the `try` body, the `catch` (which only logs) and the `finally`.  A setter that
ran before a throw keeps its effect. -/
def fetchDataSettle (parse : JVal → JSDate) (start stop : JSDate) (s : State)
    (o : PullOutcome) : State :=
  let s2 : State :=
    match o with
    | .rejected => s
    | .undecodable => s
    | .decoded data =>
      match getProp data "history" with
      | .error _ => s
      | .ok history =>
        let s1 : State := { s with history := history }
        match filterData parse s1 history start stop with
        | .ok s3 => s3
        | .error _ => s1
  { s2 with loading := false }

/-- The handler `fetchData` with no other event between the call and the end of
the pull. -/
def fetchData (parse : JVal → JSDate) (s : State) (o : PullOutcome) : State :=
  fetchDataSettle parse s.startDate s.endDate { s with loading := true } o

/-- The handler `handleStartDateChange(date)`. -/
def handleStartDateChange (parse : JVal → JSDate) (s : State) (date : JSDate) : State :=
  let s1 : State := { s with startDate := date }
  match filterData parse s1 s.history date s.endDate with
  | .ok s2 => s2
  | .error _ => s1

/-- The handler `handleEndDateChange(date)`. -/
def handleEndDateChange (parse : JVal → JSDate) (s : State) (date : JSDate) : State :=
  let s1 : State := { s with endDate := date }
  match filterData parse s1 s.history s.startDate date with
  | .ok s2 => s2
  | .error _ => s1

/-- The events of the component. -/
inductive Event where
  | push (frame : Option JVal) : Event
  | pull (o : PullOutcome) : Event
  | startChange (date : JSDate) : Event
  | endChange (date : JSDate) : Event

/-- One event, handled to completion. -/
def step (parse : JVal → JSDate) (s : State) : Event → State
  | .push frame => onmessage s frame
  | .pull o => fetchData parse s o
  | .startChange date => handleStartDateChange parse s date
  | .endChange date => handleEndDateChange parse s date

/-- The states reachable from the initial state by a sequence of events. -/
inductive Reachable (parse : JVal → JSDate) (now1 now2 : Int) : State → Prop where
  | init : Reachable parse now1 now2 (initialState now1 now2)
  | next {s : State} (e : Event) :
      Reachable parse now1 now2 s → Reachable parse now1 now2 (step parse s e)

/-! ## Binary64 numbers -/

/-- A binary64 number: `NaN`, an infinity, or a finite value, kept as the rational
it denotes.  The sign of zero is not kept (`toFixed` prints both zeros alike). -/
inductive F64 where
  | nan : F64
  | ninf : F64
  | fin (x : ℚ) : F64
  | pinf : F64

/-- The integer nearest to `y ≥ 0`, the even one on a tie. -/
def roundHalfEven (y : ℚ) : ℤ :=
  if y - ⌊y⌋ < 1 / 2 then ⌊y⌋
  else if 1 / 2 < y - ⌊y⌋ then ⌊y⌋ + 1
  else if ⌊y⌋ % 2 = 0 then ⌊y⌋
  else ⌊y⌋ + 1

/-- The exponent of the unit in the last place of the binary64 numbers around
`x ≠ 0`: 52 below the binary exponent of `x`, and `-1074` in the subnormal range. -/
def ulpExponent (x : ℚ) : ℤ := max (Int.log 2 |x| - 52) (-1074)

/-- Rounding of a real (here rational) result to binary64, to nearest, ties to
even: the magnitude is rounded to a multiple of the unit in the last place, and a
result of `2^1024` or more is an infinity. -/
def roundF64 (x : ℚ) : F64 :=
  if x = 0 then .fin 0
  else
    let r : ℚ := (roundHalfEven (|x| / 2 ^ ulpExponent x) : ℚ) * 2 ^ ulpExponent x
    if (2 : ℚ) ^ (1024 : ℤ) ≤ r then (if x < 0 then .ninf else .pinf)
    else .fin (if x < 0 then -r else r)

/-- Binary64 addition, the numeric `a + b`. -/
def fadd : F64 → F64 → F64
  | .nan, _ => .nan
  | _, .nan => .nan
  | .pinf, .ninf => .nan
  | .ninf, .pinf => .nan
  | .pinf, _ => .pinf
  | _, .pinf => .pinf
  | .ninf, _ => .ninf
  | _, .ninf => .ninf
  | .fin x, .fin y => roundF64 (x + y)

/-- Binary64 division `a / n` by an array length `n > 0` (exact as a number). -/
def fdivNat (a : F64) (n : ℕ) : F64 :=
  match a with
  | .nan => .nan
  | .pinf => .pinf
  | .ninf => .ninf
  | .fin x => roundF64 (x / n)

/-- The smaller of two numbers as `Math.min` takes it: `NaN` when either is. -/
def fminTwo : F64 → F64 → F64
  | .nan, _ => .nan
  | _, .nan => .nan
  | .ninf, _ => .ninf
  | _, .ninf => .ninf
  | .pinf, b => b
  | a, .pinf => a
  | .fin x, .fin y => .fin (min x y)

/-- The larger of two numbers as `Math.max` takes it. -/
def fmaxTwo : F64 → F64 → F64
  | .nan, _ => .nan
  | _, .nan => .nan
  | .pinf, _ => .pinf
  | _, .pinf => .pinf
  | .ninf, b => b
  | a, .ninf => a
  | .fin x, .fin y => .fin (max x y)

/-- `Math.min` of the converted arguments: it starts from `+Infinity`. -/
def mathMin (vs : List F64) : F64 := vs.foldl fminTwo .pinf

/-- `Math.max` of the converted arguments: it starts from `-Infinity`. -/
def mathMax (vs : List F64) : F64 := vs.foldl fmaxTwo .ninf

/-! ## Statistics -/

/-- A primitive value. -/
inductive Prim where
  | undefined : Prim
  | null : Prim
  | bool (b : Bool) : Prim
  | num (x : F64) : Prim
  | str (s : String) : Prim

/-- The conversions between numbers, strings and objects that the language
defines and the program does not: `Number::toString`, `StringToNumber`, and the
string an array or object converts to (`toString`, which throws a `TypeError`
when the object has own, non-callable `toString` and `valueOf`).  They are
parameters of the model. -/
structure StringOps where
  numberToString : F64 → String
  stringToNumber : String → F64
  objectToString : JVal → Except Fault String

/-- `ToPrimitive`.  A number of the JSON text is read as the nearest binary64. -/
def toPrimitive (ops : StringOps) : JVal → Except Fault Prim
  | .undefined => .ok .undefined
  | .null => .ok .null
  | .bool b => .ok (.bool b)
  | .num q => .ok (.num (roundF64 q))
  | .str s => .ok (.str s)
  | .arr xs => (ops.objectToString (.arr xs)).map Prim.str
  | .obj kvs => (ops.objectToString (.obj kvs)).map Prim.str

/-- `ToString` of a primitive. -/
def primToString (ops : StringOps) : Prim → String
  | .undefined => "undefined"
  | .null => "null"
  | .bool b => if b then "true" else "false"
  | .num x => ops.numberToString x
  | .str s => s

/-- `ToNumber` of a primitive. -/
def primToNumber (ops : StringOps) : Prim → F64
  | .undefined => .nan
  | .null => .fin 0
  | .bool b => .fin (if b then 1 else 0)
  | .num x => x
  | .str s => ops.stringToNumber s

/-- `ToNumber` of a value. -/
def toNumber (ops : StringOps) (v : JVal) : Except Fault F64 :=
  (toPrimitive ops v).map (primToNumber ops)

/-- The operator `a + b` on primitives: concatenation when either is a string,
binary64 addition of the two numbers otherwise. -/
def primAdd (ops : StringOps) (a b : Prim) : Prim :=
  match a, b with
  | .str s, _ => .str (s ++ primToString ops b)
  | _, .str t => .str (primToString ops a ++ t)
  | _, _ => .num (fadd (primToNumber ops a) (primToNumber ops b))

/-- The call `values.reduce((a, b) => a + b, a0)`: left to right, the accumulator
is a primitive, each element is converted by `ToPrimitive`. -/
def reduceAdd (ops : StringOps) : Prim → List JVal → Except Fault Prim
  | a, [] => pure a
  | a, b :: bs => do
    let pb ← toPrimitive ops b
    reduceAdd ops (primAdd ops a pb) bs

/-- A value of a statistics record: an integer number (the source has the
literal `0`), or a text `toFixed(1)` returns: a sign and a count of tenths
(`fixed false 235` is the text 23.5), the text of an infinity, the text NaN, or
for a magnitude of 1e21 and more the text of `Number::toString`, kept as the
number it is the text of. -/
inductive StatVal where
  | num (z : ℤ) : StatVal
  | fixed (neg : Bool) (tenths : ℕ) : StatVal
  | infText (neg : Bool) : StatVal
  | expText (x : ℚ) : StatVal
  | nanText : StatVal
  deriving DecidableEq

/-- The number of tenths nearest to `x ≥ 0`, the larger one on a tie. -/
def nearestTenths (x : ℚ) : ℕ := (Int.floor (x * 10 + 1 / 2)).toNat

/-- `x.toFixed(1)`: a value that is not finite, or of magnitude 1e21 and more,
is printed by `Number::toString`; otherwise the sign is split off and the exact
magnitude of the binary64 value is rounded to the nearest tenth (a tie goes up). -/
def toFixed1 : F64 → StatVal
  | .nan => .nanText
  | .pinf => .infText false
  | .ninf => .infText true
  | .fin x =>
    if (10 : ℚ) ^ 21 ≤ |x| then .expText x
    else if x < 0 then .fixed true (nearestTenths (-x))
    else .fixed false (nearestTenths x)

/-- The characters of a statistics value as displayed. -/
def StatVal.text (ops : StringOps) : StatVal → String
  | .num z => toString z
  | .fixed neg n => (if neg then "-" else "") ++ toString (n / 10) ++ "." ++ toString (n % 10)
  | .infText neg => if neg then "-Infinity" else "Infinity"
  | .expText x => ops.numberToString (.fin x)
  | .nanText => "NaN"

/-- The number a statistics value denotes: the decimal a `toFixed` text spells. -/
def StatVal.toNumber : StatVal → F64
  | .num z => .fin (z : ℚ)
  | .fixed neg n => .fin (if neg then -((n : ℚ) / 10) else (n : ℚ) / 10)
  | .infText neg => if neg then .ninf else .pinf
  | .expText x => .fin x
  | .nanText => .nan

/-- The record `calculateStats` returns. -/
structure Stats where
  avg : StatVal
  min : StatVal
  max : StatVal
  deriving DecidableEq

/-- The metric fields `calculateStats` is called with. -/
inductive Field where
  | temperature : Field
  | humidity : Field
  | lightLevel : Field
  deriving DecidableEq

/-- The property name of a metric field. -/
def Field.key : Field → String
  | .temperature => "temperature"
  | .humidity => "humidity"
  | .lightLevel => "lightLevel"

/-- `Array.prototype.map` with a callback that may throw. -/
def arrayMap {α β : Type} (f : α → Except Fault β) : List α → Except Fault (List β)
  | [] => pure []
  | x :: xs => do
    let y ← f x
    let ys ← arrayMap f xs
    pure (y :: ys)

/-- `calculateStats(data, field)`: the length guard, then `values`, the sum by
`reduce` divided by the length, and `Math.min`, `Math.max` of the spread values
(each converted by `ToNumber`), all three through `toFixed(1)`. -/
def calculateStats (ops : StringOps) (data : List JVal) (field : Field) :
    Except Fault Stats :=
  if data.length = 0 then
    pure ⟨.num 0, .num 0, .num 0⟩
  else do
    let values ← arrayMap (fun entry => getProp entry field.key) data
    let sum ← reduceAdd ops (.num (.fin 0)) values
    let avg := toFixed1 (fdivNat (primToNumber ops sum) values.length)
    let nums ← arrayMap (toNumber ops) values
    pure { avg := avg, min := toFixed1 (mathMin nums), max := toFixed1 (mathMax nums) }

/-! ## Specification vocabulary -/

/-- The values on which a property read throws. -/
def isNullish : JVal → Bool
  | .undefined => true
  | .null => true
  | _ => false

/-- The instant of a reading, `new Date(item.timestamp)`; invalid when the read
throws. -/
def instantOf (parse : JVal → JSDate) (item : JVal) : JSDate :=
  match getProp item "timestamp" with
  | .ok v => newDate parse v
  | .error _ => none

/-- The instant of `item` is valid and lies in the window, both bounds
included: `start ≤ t ≤ stop` on the integers. -/
def InWindow (parse : JVal → JSDate) (start stop : JSDate) (item : JVal) : Prop :=
  ∃ a t b : Int, start = some a ∧ instantOf parse item = some t ∧ stop = some b ∧
    a ≤ t ∧ t ≤ b

/-- Membership in the window can be decided (by running the two comparisons). -/
instance InWindow.decidable (parse : JVal → JSDate) (start stop : JSDate) :
    DecidablePred (InWindow parse start stop) := fun x =>
  decidable_of_iff
    ((dateGe (instantOf parse x) start && dateLe (instantOf parse x) stop) = true)
    (by
      cases start <;> cases stop <;> cases h : instantOf parse x <;>
        simp [InWindow, dateGe, dateLe, h])

/-- The view is in step with the store: `history` is an array and
`filteredHistory` is what the range filter gives on it with the current window. -/
def ViewInStep (parse : JVal → JSDate) (s : State) : Prop :=
  ∃ xs : List JVal, s.history = .arr xs ∧
    arrayFilter (inRange parse s.startDate s.endDate) xs = .ok s.filteredHistory

/-- The value a frame carries under a key: what the property read gives, and
`undefined` when the frame itself cannot be read from. -/
def frameField (d : JVal) (k : String) : JVal :=
  match getProp d k with
  | .ok v => v
  | .error _ => .undefined

/-- A metric is missing when it is absent (`undefined`) or `null`. -/
def metricMissing (r : JVal) (f : Field) : Bool :=
  isNullish (frameField r f.key)

/-- Validation as the specification words it (section 4.2 with section 7): a
reading passes when none of its three metrics is missing. -/
def specValid (r : JVal) : Bool :=
  !metricMissing r .temperature && !metricMissing r .humidity && !metricMissing r .lightLevel

/-- The validated payload in the specification's words: the payload in the order
received, without the readings that miss a required metric. -/
def specValidated (payload : List JVal) : List JVal :=
  payload.filter specValid

/-- A value that converts to a number without going through a string: a number,
a boolean, `null`, or `undefined` (a missing field). -/
def isPlain : JVal → Bool
  | .str _ => false
  | .arr _ => false
  | .obj _ => false
  | _ => true

/-- `ToNumber` of a plain value (`NaN` stands in for the others). -/
def plainNumber : JVal → F64
  | .undefined => .nan
  | .null => .fin 0
  | .bool b => .fin (if b then 1 else 0)
  | .num q => roundF64 q
  | _ => .nan

/-- The number a reading carries in a metric field. -/
def fieldNumber (e : JVal) (f : Field) : F64 :=
  plainNumber (frameField e f.key)

/-- The mean as the code computes it: the left-to-right binary64 sum from `0`,
divided in binary64 by the length. -/
def binary64Mean (fs : List F64) : F64 :=
  fdivNat (fs.foldl fadd (.fin 0)) fs.length

/-- The rational a finite binary64 number denotes (`0` for the others). -/
def finValue : F64 → ℚ
  | .fin x => x
  | _ => 0

/-- The left-to-right binary64 sum of `fs` from `a` is exact: every value is
finite and no addition rounds. -/
def ExactSum : ℚ → List F64 → Prop
  | _, [] => True
  | a, .fin x :: fs => roundF64 (a + x) = .fin (a + x) ∧ ExactSum (a + x) fs
  | _, _ :: _ => False

/-! ## Sample data -/

/-- A reading with numeric timestamp and metrics. -/
def reading (t temp hum light : ℚ) : JVal :=
  .obj [("timestamp", .num t), ("temperature", .num temp), ("humidity", .num hum),
    ("lightLevel", .num light)]

/-- A date parser that recognises nothing (the sample data has numeric timestamps). -/
def noParse : JVal → JSDate := fun _ => none

/-- The three readings of the scenario of section 8 of the specification. -/
def scenarioHistory : List JVal :=
  [reading 100 20 40 5, reading 200 22 42 6, reading 300 25 45 7]

/-- A reading at instant 100 that has no `temperature`. -/
def readingNoTemperature : JVal :=
  .obj [("timestamp", .num 100), ("humidity", .num 40), ("lightLevel", .num 5)]

/-- A push frame that carries a bulk history and nothing else. -/
def historyFrame (payload : List JVal) : JVal :=
  .obj [("history", .arr payload)]

/-- A push frame that carries a bulk history, the three metrics and a status. -/
def mixedFrame : JVal :=
  .obj [("history", .arr [reading 100 20 40 5]), ("temperature", .num 21),
    ("humidity", .num 50), ("lightLevel", .num 10),
    ("status", .obj [("dht22", .str "active"), ("ldr", .str "active")])]


/-- A metric value that is absent, `null` or `0`. -/
def AbsentNullOrZero (v : JVal) : Prop :=
  v = .undefined ∨ v = .null ∨ v = .num 0

/-- The frame of section 8 whose temperature is `0`. -/
def zeroTemperatureFrame : JVal :=
  .obj [("temperature", .num 0), ("humidity", .num 50), ("lightLevel", .num 10)]

/-- A live frame with three non-zero metrics. -/
def liveFrame : JVal :=
  .obj [("temperature", .num 21), ("humidity", .num 50), ("lightLevel", .num 10)]

/-- The two readings the scenario window 150..300 keeps. -/
def scenarioView : List JVal :=
  [reading 200 22 42 6, reading 300 25 45 7]

/-- A single reading whose temperature 22.46 has two decimals. -/
def twoDecimalsView : List JVal :=
  [reading 100 (1123 / 50) 40 5]

/-- Four readings with temperatures 27.4, 34.8, 37.5, 26.9. -/
def orderA : List JVal :=
  [reading 100 (137 / 5) 40 5, reading 200 (174 / 5) 40 5, reading 300 (75 / 2) 40 5,
    reading 400 (269 / 10) 40 5]

/-- The same four readings in the order 27.4, 37.5, 26.9, 34.8. -/
def orderB : List JVal :=
  [reading 100 (137 / 5) 40 5, reading 300 (75 / 2) 40 5, reading 400 (269 / 10) 40 5,
    reading 200 (174 / 5) 40 5]

/-- String conversions for data without strings, arrays or objects as metric
values, on which none of them is called. -/
def plainOps : StringOps where
  numberToString := fun _ => ""
  stringToNumber := fun _ => .nan
  objectToString := fun _ => .error .typeError

/-! # Theorems -/

/-! ## Range filter: lemmas -/

theorem getProp_ok_of_not_nullish {x : JVal} (h : isNullish x = false) (k : String) :
    ∃ v, getProp x k = .ok v := by
  cases x <;> simp [isNullish, getProp] at h ⊢

theorem dateGe_dateLe_iff (start stop t : JSDate) :
    (dateGe t start && dateLe t stop) = true ↔
      ∃ a u b : Int, start = some a ∧ t = some u ∧ stop = some b ∧ a ≤ u ∧ u ≤ b := by
  cases start <;> cases stop <;> cases t <;> simp [dateGe, dateLe]

theorem inRange_iff_inWindow (parse : JVal → JSDate) (start stop : JSDate) {x : JVal}
    (h : isNullish x = false) :
    ∃ b : Bool, inRange parse start stop x = .ok b ∧ (b = true ↔ InWindow parse start stop x) := by
  obtain ⟨v, hv⟩ := getProp_ok_of_not_nullish h "timestamp"
  refine ⟨dateGe (newDate parse v) start && dateLe (newDate parse v) stop, ?_, ?_⟩
  · simp [inRange, hv, bind, Except.bind, pure, Except.pure]
  · rw [dateGe_dateLe_iff]
    simp [InWindow, instantOf, hv]

theorem arrayFilter_eq_filter (parse : JVal → JSDate) (start stop : JSDate) :
    ∀ xs : List JVal, (∀ x ∈ xs, isNullish x = false) →
      arrayFilter (inRange parse start stop) xs =
        .ok (xs.filter (fun x => decide (InWindow parse start stop x)))
  | [], _ => rfl
  | x :: xs, h => by
    obtain ⟨b, hb, hiff⟩ := inRange_iff_inWindow parse start stop (h x (by simp))
    have ih := arrayFilter_eq_filter parse start stop xs (fun y hy => h y (by simp [hy]))
    cases b with
    | true =>
      have hw : InWindow parse start stop x := hiff.mp rfl
      simp [arrayFilter, hb, ih, bind, Except.bind, pure, Except.pure, hw]
    | false =>
      have hw : ¬ InWindow parse start stop x := fun hc => by simpa using hiff.mpr hc
      simp [arrayFilter, hb, ih, bind, Except.bind, pure, Except.pure, hw]

/-! ## C1: the range filter -/

/-- C1. On a sequence of readings (values a property can be read from),
`filterData` returns, and stores in `filteredHistory`, exactly the readings whose
instant `t` satisfies `start ≤ t ≤ stop`, both bounds included: the result is the
input with the other readings deleted (same relative order, same multiplicities,
nothing added), and it is empty for an empty input and for an empty intersection. -/
theorem filterData_keeps_exactly_window (parse : JVal → JSDate) (s : State)
    (xs : List JVal) (start stop : JSDate) (hxs : ∀ x ∈ xs, isNullish x = false) :
    ∃ ys : List JVal,
      filterData parse s (.arr xs) start stop = .ok { s with filteredHistory := ys } ∧
      ys = xs.filter (fun x => decide (InWindow parse start stop x)) ∧
      ys.Sublist xs ∧
      (∀ x, x ∈ ys ↔ x ∈ xs ∧ InWindow parse start stop x) ∧
      (xs = [] → ys = []) ∧
      ((∀ x ∈ xs, ¬ InWindow parse start stop x) → ys = []) := by
  refine ⟨xs.filter (fun x => decide (InWindow parse start stop x)), ?_, rfl,
    List.filter_sublist xs, ?_, ?_, ?_⟩
  · simp [filterData, arrayFilter_eq_filter parse start stop xs hxs, bind, Except.bind, pure,
      Except.pure]
  · intro x
    simp [List.mem_filter]
  · intro h
    simp [h]
  · intro h
    simpa [List.filter_eq_nil_iff] using h

/-- C1 at the scenario: the window 150..300 keeps the readings at 200 and 300. -/
theorem filterData_keeps_exactly_window_witness :
    (∀ x ∈ scenarioHistory, isNullish x = false) ∧
    ∃ ys : List JVal,
      filterData noParse (initialState 0 0) (.arr scenarioHistory) (some 150) (some 300)
        = .ok { initialState 0 0 with filteredHistory := ys } ∧
      ys = scenarioHistory.filter (fun x => decide (InWindow noParse (some 150) (some 300) x)) ∧
      ys.Sublist scenarioHistory ∧
      (∀ x, x ∈ ys ↔ x ∈ scenarioHistory ∧ InWindow noParse (some 150) (some 300) x) ∧
      (scenarioHistory = [] → ys = []) ∧
      ((∀ x ∈ scenarioHistory, ¬ InWindow noParse (some 150) (some 300) x) → ys = []) :=
  ⟨by simp [scenarioHistory, reading, isNullish],
   filterData_keeps_exactly_window noParse (initialState 0 0) scenarioHistory (some 150)
     (some 300) (by simp [scenarioHistory, reading, isNullish])⟩

/-! ## Handlers: lemmas -/

/-- A call of `filterData` that returns has written `filteredHistory` only. -/
theorem filterData_ok_frame {parse : JVal → JSDate} {s s2 : State} {data : JVal}
    {start stop : JSDate} (h : filterData parse s data start stop = .ok s2) :
    ∃ ys, s2 = { s with filteredHistory := ys } := by
  cases data <;> simp [filterData] at h
  rename_i xs
  cases hf : arrayFilter (inRange parse start stop) xs with
  | error e => simp [hf, bind, Except.bind] at h
  | ok ys =>
    simp [hf, bind, Except.bind, pure, Except.pure] at h
    exact ⟨ys, h.symm⟩

theorem getProp_ok_of_ok {d v : JVal} {k : String} (h : getProp d k = .ok v) (k2 : String) :
    ∃ v2, getProp d k2 = .ok v2 := by
  cases d <;> simp [getProp] at h ⊢

/-- A frame whose `history` is truthy: the store takes it, the live snapshot is
kept, the status is taken when truthy. -/
theorem onmessage_of_history {s : State} {d h : JVal} (hd : getProp d "history" = .ok h)
    (ht : truthy h = true) :
    ∃ st, getProp d "status" = .ok st ∧
      onmessage s (some d) =
        if truthy st then { s with history := h, sensorStatus := st }
        else { s with history := h } := by
  obtain ⟨st, hst⟩ := getProp_ok_of_ok hd "status"
  refine ⟨st, hst, ?_⟩
  by_cases hs : truthy st = true <;>
    simp [onmessage, onmessageBody, hd, ht, hst, hs, bind, Except.bind, pure, Except.pure]

/-- The push handler never writes `filteredHistory`. -/
theorem onmessage_filteredHistory (s : State) (frame : Option JVal) :
    (onmessage s frame).filteredHistory = s.filteredHistory := by
  cases frame with
  | none => rfl
  | some d =>
    by_cases hn : isNullish d = true
    · cases d <;> simp [isNullish] at hn <;>
        simp [onmessage, onmessageBody, getProp, bind, Except.bind]
    · have hn2 : isNullish d = false := by simpa using hn
      obtain ⟨h, hh⟩ := getProp_ok_of_not_nullish hn2 "history"
      obtain ⟨t, ht⟩ := getProp_ok_of_not_nullish hn2 "temperature"
      obtain ⟨u, hu⟩ := getProp_ok_of_not_nullish hn2 "humidity"
      obtain ⟨l, hl⟩ := getProp_ok_of_not_nullish hn2 "lightLevel"
      obtain ⟨st, hst⟩ := getProp_ok_of_not_nullish hn2 "status"
      cases h1 : truthy h <;> cases h2 : truthy t <;> cases h3 : truthy u <;>
        cases h4 : truthy l <;> cases h5 : truthy st <;>
        simp [onmessage, onmessageBody, hh, ht, hu, hl, hst, h1, h2, h3, h4, h5, bind,
          Except.bind, pure, Except.pure]

/-! ## C2: the view after a pushed history -/

/-- C2, the defect: from the initial state with window 100..100, the push frame
carrying the history `[reading 100 ..]` gives a reachable state whose store holds
that reading, inside the window, while `filteredHistory` is still empty: the view
is not the filter of the store.  (`fetchData` calls `filterData` after
`setHistory`; `ws.onmessage` does not.) -/
theorem push_history_leaves_view_stale :
    Reachable noParse 100 100
        (onmessage (initialState 100 100) (some (historyFrame [reading 100 20 40 5]))) ∧
      (onmessage (initialState 100 100) (some (historyFrame [reading 100 20 40 5]))).history
        = .arr [reading 100 20 40 5] ∧
      (onmessage (initialState 100 100)
        (some (historyFrame [reading 100 20 40 5]))).filteredHistory = [] ∧
      arrayFilter (inRange noParse (some 100) (some 100)) [reading 100 20 40 5]
        = .ok [reading 100 20 40 5] ∧
      ¬ ViewInStep noParse
        (onmessage (initialState 100 100) (some (historyFrame [reading 100 20 40 5]))) := by
  have hd : getProp (historyFrame [reading 100 20 40 5]) "history"
      = .ok (.arr [reading 100 20 40 5]) := by
    simp [historyFrame, getProp, List.lookup]
  have hs : getProp (historyFrame [reading 100 20 40 5]) "status" = .ok .undefined := by
    simp [historyFrame, getProp, List.lookup]
  have hstep : onmessage (initialState 100 100) (some (historyFrame [reading 100 20 40 5]))
      = { initialState 100 100 with history := .arr [reading 100 20 40 5] } := by
    obtain ⟨st, hst, h⟩ := onmessage_of_history (s := initialState 100 100) hd rfl
    rw [hs] at hst
    cases hst
    simpa [truthy] using h
  have hf : arrayFilter (inRange noParse (some 100) (some 100)) [reading 100 20 40 5]
      = .ok [reading 100 20 40 5] := rfl
  refine ⟨?_, ?_, ?_, hf, ?_⟩
  · exact Reachable.next (.push (some (historyFrame [reading 100 20 40 5]))) Reachable.init
  · rw [hstep]
  · rw [hstep]; rfl
  · rw [hstep]
    rintro ⟨xs, hxs, hfil⟩
    simp only [initialState] at hxs hfil
    cases hxs
    rw [hf] at hfil
    simp at hfil

/-- The sibling path: a pull whose body carries an array of readings installs it
and refilters it with the current window, so the view is in step afterwards. -/
theorem fetchData_view_in_step (parse : JVal → JSDate) (s : State) (d : JVal)
    (xs : List JVal) (hd : getProp d "history" = .ok (.arr xs))
    (hxs : ∀ x ∈ xs, isNullish x = false) :
    ViewInStep parse (fetchData parse s (.decoded d)) := by
  refine ⟨xs, ?_, ?_⟩ <;>
    simp [fetchData, fetchDataSettle, hd, filterData,
      arrayFilter_eq_filter parse s.startDate s.endDate xs hxs, bind, Except.bind, pure,
      Except.pure]

/-- A window change refilters the store: the view is in step afterwards. -/
theorem handleStartDateChange_view_in_step (parse : JVal → JSDate) (s : State)
    (date : JSDate) (xs : List JVal) (hh : s.history = .arr xs)
    (hxs : ∀ x ∈ xs, isNullish x = false) :
    ViewInStep parse (handleStartDateChange parse s date) := by
  refine ⟨xs, ?_, ?_⟩ <;>
    simp [handleStartDateChange, hh, filterData,
      arrayFilter_eq_filter parse date s.endDate xs hxs, bind, Except.bind, pure, Except.pure]

/-- The same for the end of the window. -/
theorem handleEndDateChange_view_in_step (parse : JVal → JSDate) (s : State)
    (date : JSDate) (xs : List JVal) (hh : s.history = .arr xs)
    (hxs : ∀ x ∈ xs, isNullish x = false) :
    ViewInStep parse (handleEndDateChange parse s date) := by
  refine ⟨xs, ?_, ?_⟩ <;>
    simp [handleEndDateChange, hh, filterData,
      arrayFilter_eq_filter parse s.startDate date xs hxs, bind, Except.bind, pure, Except.pure]

/-! ## C3: what a bulk history installs -/

/-- C3 as stated fails: the push frame whose history is one reading without
`temperature` leaves that reading in the store, while the validated payload is
empty. -/
theorem bulk_history_not_validated :
    (onmessage (initialState 0 0) (some (historyFrame [readingNoTemperature]))).history
        = .arr [readingNoTemperature] ∧
      specValidated [readingNoTemperature] = [] ∧
      (onmessage (initialState 0 0) (some (historyFrame [readingNoTemperature]))).history
        ≠ .arr (specValidated [readingNoTemperature]) := by
  have h1 : (onmessage (initialState 0 0) (some (historyFrame [readingNoTemperature]))).history
      = .arr [readingNoTemperature] := rfl
  have h2 : specValidated [readingNoTemperature] = [] := rfl
  refine ⟨h1, h2, ?_⟩
  rw [h1, h2]
  simp

/-- C3 amended. A bulk history payload `xs`, pushed or pulled, becomes the store
as received: every reading of the payload in the order received, none removed
(also one that misses a metric), and nothing of the prior store kept. -/
theorem bulk_history_installed_verbatim (parse : JVal → JSDate) (s : State) (d : JVal)
    (xs : List JVal) (hd : getProp d "history" = .ok (.arr xs)) :
    (onmessage s (some d)).history = .arr xs ∧
      (fetchData parse s (.decoded d)).history = .arr xs := by
  constructor
  · obtain ⟨st, _, h⟩ := onmessage_of_history (s := s) hd rfl
    rw [h]
    split <;> rfl
  · simp only [fetchData, fetchDataSettle, hd]
    split
    · rename_i s3 hf
      obtain ⟨ys, rfl⟩ := filterData_ok_frame hf
      rfl
    · rfl

/-- C3 amended, at the payload with the reading that has no temperature. -/
theorem bulk_history_installed_verbatim_witness :
    getProp (historyFrame [readingNoTemperature]) "history" = .ok (.arr [readingNoTemperature]) ∧
      (onmessage (initialState 0 0) (some (historyFrame [readingNoTemperature]))).history
        = .arr [readingNoTemperature] ∧
      (fetchData noParse (initialState 0 0)
        (.decoded (historyFrame [readingNoTemperature]))).history
        = .arr [readingNoTemperature] :=
  ⟨rfl, bulk_history_installed_verbatim noParse (initialState 0 0)
    (historyFrame [readingNoTemperature]) [readingNoTemperature] rfl⟩

/-! ## C4: a pull that fails -/

/-- A pull that is rejected or whose body does not decode changes nothing but
`loading`, which ends `false`. -/
theorem fetchData_rejected_or_undecodable (parse : JVal → JSDate) (s : State) :
    fetchData parse s .rejected = { s with loading := false } ∧
      fetchData parse s .undecodable = { s with loading := false } :=
  ⟨rfl, rfl⟩

/-- A decoded body whose `history` is not an array: the store takes that value,
then `filterData` throws and the view is kept. -/
theorem fetchData_installs_before_throw (parse : JVal → JSDate) (s : State) (d h : JVal)
    (hd : getProp d "history" = .ok h) (hh : ∀ xs, h ≠ .arr xs) :
    fetchData parse s (.decoded d) = { s with history := h, loading := false } := by
  have hf : ∀ s1 : State, filterData parse s1 h s.startDate s.endDate = .error .typeError := by
    intro s1
    cases h <;> first | rfl | exact absurd rfl (hh _)
  simp [fetchData, fetchDataSettle, hd, hf]

/-- C4, the defect: in the reachable state whose store holds one reading, a pull
whose body decodes to the empty object makes `filterData` throw (there is no
`history` sequence), and the store ends as `undefined`, not as it was:
`setHistory(data.history)` runs before the statement that throws. -/
theorem failed_pull_overwrites_history :
    Reachable noParse 100 100
        (onmessage (initialState 100 100) (some (historyFrame [reading 100 20 40 5]))) ∧
      (onmessage (initialState 100 100) (some (historyFrame [reading 100 20 40 5]))).history
        = .arr [reading 100 20 40 5] ∧
      getProp (.obj []) "history" = .ok .undefined ∧
      (∀ s : State, filterData noParse s .undefined (some 100) (some 100)
        = .error .typeError) ∧
      (fetchData noParse
        (onmessage (initialState 100 100) (some (historyFrame [reading 100 20 40 5])))
        (.decoded (.obj []))).history = .undefined ∧
      (fetchData noParse
        (onmessage (initialState 100 100) (some (historyFrame [reading 100 20 40 5])))
        (.decoded (.obj []))).history ≠
        (onmessage (initialState 100 100) (some (historyFrame [reading 100 20 40 5]))).history := by
  have h1 : (onmessage (initialState 100 100)
      (some (historyFrame [reading 100 20 40 5]))).history = .arr [reading 100 20 40 5] := rfl
  have h2 : (fetchData noParse
      (onmessage (initialState 100 100) (some (historyFrame [reading 100 20 40 5])))
      (.decoded (.obj []))).history = .undefined := rfl
  refine ⟨Reachable.next (.push (some (historyFrame [reading 100 20 40 5]))) Reachable.init,
    h1, rfl, fun _ => rfl, h2, ?_⟩
  rw [h1, h2]
  simp

/-! ## C5: the live snapshot -/

theorem truthy_of_absentNullOrZero {v : JVal} (h : AbsentNullOrZero v) : truthy v = false := by
  rcases h with h | h | h <;> simp [h, truthy]

/-- The live snapshot after a frame, by the tests the handler makes. -/
theorem currentData_after_frame (s : State) (d : JVal) :
    (onmessage s (some d)).currentData =
      if truthy (frameField d "history") = false ∧
          truthy (frameField d "temperature") = true ∧
          truthy (frameField d "humidity") = true ∧
          truthy (frameField d "lightLevel") = true then
        ⟨frameField d "temperature", frameField d "humidity", frameField d "lightLevel"⟩
      else s.currentData := by
  by_cases hn : isNullish d = true
  · cases d <;> simp [isNullish] at hn <;>
      simp [onmessage, onmessageBody, getProp, frameField, truthy, bind, Except.bind]
  · have hn2 : isNullish d = false := by simpa using hn
    obtain ⟨h, hh⟩ := getProp_ok_of_not_nullish hn2 "history"
    obtain ⟨t, ht⟩ := getProp_ok_of_not_nullish hn2 "temperature"
    obtain ⟨u, hu⟩ := getProp_ok_of_not_nullish hn2 "humidity"
    obtain ⟨l, hl⟩ := getProp_ok_of_not_nullish hn2 "lightLevel"
    obtain ⟨st, hst⟩ := getProp_ok_of_not_nullish hn2 "status"
    simp only [frameField, hh, ht, hu, hl]
    cases h1 : truthy h <;> cases h2 : truthy t <;> cases h3 : truthy u <;>
      cases h4 : truthy l <;> cases h5 : truthy st <;>
      simp [onmessage, onmessageBody, hh, ht, hu, hl, hst, h1, h2, h3, h4, h5, bind,
        Except.bind, pure, Except.pure]

/-- C5. After `ws.onmessage` on a decoded frame, `currentData` is the frame's
three metrics when the frame carries no history (`data.history` is falsy, as it
is when the key is absent) and the three metrics are all truthy, and is the
prior `currentData` in every other case; so a frame with no `history` key and
three truthy metrics is taken, and a frame in which one of the metrics is
absent, `null` or `0` leaves `currentData` as it was. -/
theorem onmessage_currentData (s : State) (d : JVal) :
    ((onmessage s (some d)).currentData =
      if truthy (frameField d "history") = false ∧
          truthy (frameField d "temperature") = true ∧
          truthy (frameField d "humidity") = true ∧
          truthy (frameField d "lightLevel") = true then
        ⟨frameField d "temperature", frameField d "humidity", frameField d "lightLevel"⟩
      else s.currentData) ∧
    (∀ kvs, d = .obj kvs → kvs.lookup "history" = none →
      truthy (frameField d "temperature") = true →
      truthy (frameField d "humidity") = true →
      truthy (frameField d "lightLevel") = true →
      (onmessage s (some d)).currentData =
        ⟨frameField d "temperature", frameField d "humidity", frameField d "lightLevel"⟩) ∧
    (AbsentNullOrZero (frameField d "temperature") ∨
        AbsentNullOrZero (frameField d "humidity") ∨
        AbsentNullOrZero (frameField d "lightLevel") →
      (onmessage s (some d)).currentData = s.currentData) := by
  refine ⟨currentData_after_frame s d, ?_, ?_⟩
  · intro kvs hd hk h1 h2 h3
    rw [currentData_after_frame]
    have h0 : truthy (frameField d "history") = false := by
      subst hd
      simp [frameField, getProp, hk, truthy]
    simp [h0, h1, h2, h3]
  · intro h
    rw [currentData_after_frame]
    rcases h with h | h | h <;>
      simp [truthy_of_absentNullOrZero h]

/-- C5 at two frames: the frame with temperature `0` of section 8 leaves the
snapshot of the initial state, the frame with three non-zero metrics replaces it. -/
theorem onmessage_currentData_witness :
    (onmessage (initialState 0 0) (some zeroTemperatureFrame)).currentData
        = (initialState 0 0).currentData ∧
      (onmessage (initialState 0 0) (some liveFrame)).currentData
        = ⟨.num 21, .num 50, .num 10⟩ :=
  ⟨(onmessage_currentData (initialState 0 0) zeroTemperatureFrame).2.2
      (Or.inl (Or.inr (Or.inr rfl))),
    (onmessage_currentData (initialState 0 0) liveFrame).2.1 _ rfl rfl
      (by simp [frameField, liveFrame, getProp, List.lookup, truthy])
      (by simp [frameField, liveFrame, getProp, List.lookup, truthy])
      (by simp [frameField, liveFrame, getProp, List.lookup, truthy])⟩

/-! ## C6: a status frame -/

/-- C6. A push frame whose only key is `status`, with a map `m` as value, makes
`sensorStatus` exactly `m` (the prior map is replaced, not merged) and leaves
`currentData`, `history`, `filteredHistory` and the window as they were. -/
theorem status_frame_replaces_status (s : State) (m : List (String × JVal)) :
    onmessage s (some (.obj [("status", .obj m)])) = { s with sensorStatus := .obj m } ∧
      (onmessage s (some (.obj [("status", .obj m)]))).sensorStatus = .obj m ∧
      (onmessage s (some (.obj [("status", .obj m)]))).currentData = s.currentData ∧
      (onmessage s (some (.obj [("status", .obj m)]))).history = s.history ∧
      (onmessage s (some (.obj [("status", .obj m)]))).filteredHistory = s.filteredHistory ∧
      (onmessage s (some (.obj [("status", .obj m)]))).startDate = s.startDate ∧
      (onmessage s (some (.obj [("status", .obj m)]))).endDate = s.endDate := by
  have h : onmessage s (some (.obj [("status", .obj m)])) = { s with sensorStatus := .obj m } := by
    simp [onmessage, onmessageBody, getProp, List.lookup, truthy, bind, Except.bind, pure,
      Except.pure]
  rw [h]
  exact ⟨rfl, rfl, rfl, rfl, rfl, rfl, rfl⟩

/-! ## C10: a frame with several keys -/

/-- C10 as stated fails: on the frame that carries a history, three truthy
metrics and a status, the store and the status are taken but `currentData` stays
that of the initial state instead of the frame's 21, 50, 10. -/
theorem mixed_frame_keeps_currentData :
    (onmessage (initialState 0 0) (some mixedFrame)).history = .arr [reading 100 20 40 5] ∧
      (onmessage (initialState 0 0) (some mixedFrame)).currentData
        = ⟨.num 0, .num 0, .num 0⟩ ∧
      (onmessage (initialState 0 0) (some mixedFrame)).currentData
        ≠ ⟨.num 21, .num 50, .num 10⟩ := by
  have h : (onmessage (initialState 0 0) (some mixedFrame)).currentData
      = ⟨.num 0, .num 0, .num 0⟩ := rfl
  refine ⟨rfl, h, ?_⟩
  rw [h]
  simp

/-- C10 amended. The metrics are read only when the frame carries no history:
on a frame whose `history` is truthy (a sequence is), `history` becomes the
frame's history and `currentData` stays the prior one, whatever metrics the frame
carries; the status is handled independently of both: `sensorStatus` becomes the
frame's status when that is truthy and stays as it was otherwise. -/
theorem history_frame_skips_metrics (s : State) (d h : JVal)
    (hd : getProp d "history" = .ok h) (ht : truthy h = true) :
    (onmessage s (some d)).history = h ∧
      (onmessage s (some d)).currentData = s.currentData ∧
      (truthy (frameField d "status") = true →
        (onmessage s (some d)).sensorStatus = frameField d "status") ∧
      (truthy (frameField d "status") = false →
        (onmessage s (some d)).sensorStatus = s.sensorStatus) := by
  obtain ⟨st, hst, hm⟩ := onmessage_of_history (s := s) hd ht
  rw [hm]
  simp only [frameField, hst]
  cases h5 : truthy st <;> simp

/-- C10 amended, at the frame with a history, three metrics and a status. -/
theorem history_frame_skips_metrics_witness :
    getProp mixedFrame "history" = .ok (.arr [reading 100 20 40 5]) ∧
      truthy (.arr [reading 100 20 40 5]) = true ∧
      (onmessage (initialState 0 0) (some mixedFrame)).history = .arr [reading 100 20 40 5] ∧
      (onmessage (initialState 0 0) (some mixedFrame)).currentData
        = (initialState 0 0).currentData ∧
      (truthy (frameField mixedFrame "status") = true →
        (onmessage (initialState 0 0) (some mixedFrame)).sensorStatus
          = frameField mixedFrame "status") ∧
      (truthy (frameField mixedFrame "status") = false →
        (onmessage (initialState 0 0) (some mixedFrame)).sensorStatus
          = (initialState 0 0).sensorStatus) :=
  ⟨rfl, rfl, history_frame_skips_metrics (initialState 0 0) mixedFrame
    (.arr [reading 100 20 40 5]) rfl rfl⟩

/-! ## Binary64 rounding: lemmas -/

theorem roundHalfEven_of_near {y : ℚ} {m : ℤ} (h1 : (m : ℚ) - 1 / 2 < y)
    (h2 : y < (m : ℚ) + 1 / 2) : roundHalfEven y = m := by
  have hf1 : ((⌊y⌋ : ℤ) : ℚ) ≤ y := Int.floor_le y
  have hf2 : y < ((⌊y⌋ : ℤ) : ℚ) + 1 := Int.lt_floor_add_one y
  unfold roundHalfEven
  by_cases c1 : y - ⌊y⌋ < 1 / 2
  · rw [if_pos c1]
    have a1 : (m : ℚ) < ((⌊y⌋ + 1 : ℤ) : ℚ) := by push_cast; linarith
    have a2 : ((⌊y⌋ : ℤ) : ℚ) < ((m + 1 : ℤ) : ℚ) := by push_cast; linarith
    have b1 : m < ⌊y⌋ + 1 := by exact_mod_cast a1
    have b2 : ⌊y⌋ < m + 1 := by exact_mod_cast a2
    omega
  · rw [if_neg c1]
    by_cases c2 : 1 / 2 < y - ⌊y⌋
    · rw [if_pos c2]
      have a1 : (m : ℚ) < ((⌊y⌋ + 2 : ℤ) : ℚ) := by push_cast; linarith
      have a2 : ((⌊y⌋ : ℤ) : ℚ) < ((m : ℤ) : ℚ) := by linarith
      have b1 : m < ⌊y⌋ + 2 := by exact_mod_cast a1
      have b2 : ⌊y⌋ < m := by exact_mod_cast a2
      omega
    · exfalso
      have hy : y - ⌊y⌋ = 1 / 2 := le_antisymm (not_lt.mp c2) (not_lt.mp c1)
      have a1 : (m : ℚ) < ((⌊y⌋ + 1 : ℤ) : ℚ) := by push_cast; linarith
      have a2 : ((⌊y⌋ : ℤ) : ℚ) < ((m : ℤ) : ℚ) := by linarith
      have b1 : m < ⌊y⌋ + 1 := by exact_mod_cast a1
      have b2 : ⌊y⌋ < m := by exact_mod_cast a2
      omega

theorem int_log_two_eq {x : ℚ} {k : ℤ} (hx : 0 < x) (hlo : (2 : ℚ) ^ k ≤ x)
    (hhi : x < (2 : ℚ) ^ (k + 1)) : Int.log 2 x = k := by
  have h1 : k ≤ Int.log 2 x :=
    (Int.zpow_le_iff_le_log (b := 2) (by norm_num) hx).mp (by simpa using hlo)
  have h2 : Int.log 2 x < k + 1 :=
    (Int.lt_zpow_iff_log_lt (b := 2) (by norm_num) hx).mp (by simpa using hhi)
  omega

theorem roundHalfEven_of_tie {y : ℚ} {f m : ℤ} (h : y = (f : ℚ) + 1 / 2)
    (hm : m = if f % 2 = 0 then f else f + 1) : roundHalfEven y = m := by
  have hfl : ⌊y⌋ = f := by
    rw [Int.floor_eq_iff]
    constructor <;> linarith
  have c1 : ¬ (y - (f : ℚ) < 1 / 2) := by rw [h]; norm_num
  have c2 : ¬ (1 / 2 < y - (f : ℚ)) := by rw [h]; norm_num
  unfold roundHalfEven
  rw [hfl, if_neg c1, if_neg c2, hm]

/-- Rounding of a positive `x` in the normal range: with `k` the binary exponent
of `x` and `m` the integer that `x / 2^(k-52)` rounds to (ties to even), the
binary64 value is `m * 2^(k-52)`. -/
theorem roundF64_pos {x r : ℚ} (k m : ℤ) (hlo : (2 : ℚ) ^ k ≤ x)
    (hhi : x < (2 : ℚ) ^ (k + 1)) (hk : -1022 ≤ k)
    (hm : roundHalfEven (x / (2 : ℚ) ^ (k - 52)) = m)
    (hr : (m : ℚ) * (2 : ℚ) ^ (k - 52) = r) (hov : r < (2 : ℚ) ^ (1024 : ℤ)) :
    roundF64 x = .fin r := by
  have hx : 0 < x := lt_of_lt_of_le (zpow_pos (by norm_num) k) hlo
  have hne : x ≠ 0 := ne_of_gt hx
  have habs : |x| = x := abs_of_pos hx
  have hu : ulpExponent x = k - 52 := by
    unfold ulpExponent
    rw [habs, int_log_two_eq hx hlo hhi]
    omega
  have hnlt : ¬ x < 0 := not_lt.mpr hx.le
  unfold roundF64
  simp only [hne, if_false, habs, hu, hm, hr, not_le.mpr hov, hnlt]

/-! ## Statistics: lemmas -/

theorem arrayMap_of_map {α β : Type} (f : α → Except Fault β) :
    ∀ (xs : List α) (ys : List β), xs.map f = ys.map Except.ok → arrayMap f xs = .ok ys
  | [], [], _ => rfl
  | [], _ :: _, h => by simp at h
  | _ :: _, [], h => by simp at h
  | x :: xs, y :: ys, h => by
    simp only [List.map_cons, List.cons.injEq] at h
    simp [arrayMap, h.1, arrayMap_of_map f xs ys h.2, bind, Except.bind, pure, Except.pure]

theorem getProp_eq_frameField {e : JVal} (h : isNullish e = false) (k : String) :
    getProp e k = .ok (frameField e k) := by
  obtain ⟨v, hv⟩ := getProp_ok_of_not_nullish h k
  simp [frameField, hv]

theorem toNumber_plain (ops : StringOps) {v : JVal} (h : isPlain v = true) :
    toNumber ops v = .ok (plainNumber v) := by
  cases v <;> simp [isPlain] at h <;> rfl

theorem reduceAdd_plain (ops : StringOps) :
    ∀ (vs : List JVal) (a : F64), (∀ v ∈ vs, isPlain v = true) →
      reduceAdd ops (.num a) vs = .ok (.num ((vs.map plainNumber).foldl fadd a))
  | [], _, _ => rfl
  | v :: vs, a, h => by
    have hv : isPlain v = true := h v (by simp)
    have ih := fun b => reduceAdd_plain ops vs b (fun w hw => h w (by simp [hw]))
    cases v <;> simp [isPlain] at hv <;>
      simp [reduceAdd, toPrimitive, primAdd, primToNumber, plainNumber, ih, bind, Except.bind]

theorem arrayMap_toNumber_plain (ops : StringOps) (vs : List JVal)
    (h : ∀ v ∈ vs, isPlain v = true) :
    arrayMap (toNumber ops) vs = .ok (vs.map plainNumber) := by
  apply arrayMap_of_map
  rw [List.map_map]
  apply List.map_congr_left
  intro v hv
  simpa using toNumber_plain ops (h v hv)

/-- On readings whose field values are plain, `calculateStats` returns the three
`toFixed(1)` texts of the binary64 mean, of `Math.min` and of `Math.max` of the
field numbers. -/
theorem calculateStats_plain (ops : StringOps) (data : List JVal) (field : Field)
    (hne : data ≠ [])
    (hplain : ∀ e ∈ data, isNullish e = false ∧ isPlain (frameField e field.key) = true) :
    calculateStats ops data field = .ok
      ⟨toFixed1 (binary64Mean (data.map (fun e => fieldNumber e field))),
       toFixed1 (mathMin (data.map (fun e => fieldNumber e field))),
       toFixed1 (mathMax (data.map (fun e => fieldNumber e field)))⟩ := by
  have hlen : data.length ≠ 0 := by
    intro h
    exact hne (List.length_eq_zero.mp h)
  have hv : arrayMap (fun e => getProp e field.key) data
      = .ok (data.map (fun e => frameField e field.key)) := by
    apply arrayMap_of_map
    rw [List.map_map]
    apply List.map_congr_left
    intro e he
    simpa using getProp_eq_frameField (hplain e he).1 field.key
  have hp : ∀ v ∈ data.map (fun e => frameField e field.key), isPlain v = true := by
    intro v hv
    obtain ⟨e, he, rfl⟩ := List.mem_map.mp hv
    exact (hplain e he).2
  have hnum := arrayMap_toNumber_plain ops _ hp
  have hmap : (data.map (fun e => frameField e field.key)).map plainNumber
      = data.map (fun e => fieldNumber e field) := by
    rw [List.map_map]
    rfl
  simp only [calculateStats, hlen, if_false, hv, reduceAdd_plain ops _ _ hp, hnum, hmap, bind,
    Except.bind, pure, Except.pure, primToNumber, binary64Mean, List.length_map]

theorem fadd_nan_right (a : F64) : fadd a .nan = .nan := by
  cases a <;> rfl

theorem fadd_nan_left (b : F64) : fadd .nan b = .nan := by
  cases b <;> rfl

theorem fminTwo_nan_left (b : F64) : fminTwo .nan b = .nan := by
  cases b <;> rfl

theorem fmaxTwo_nan_left (b : F64) : fmaxTwo .nan b = .nan := by
  cases b <;> rfl

theorem fminTwo_nan_right (a : F64) : fminTwo a .nan = .nan := by
  cases a <;> rfl

theorem fmaxTwo_nan_right (a : F64) : fmaxTwo a .nan = .nan := by
  cases a <;> rfl

theorem foldl_nan_absorbs (f : F64 → F64 → F64) (hl : ∀ b, f .nan b = .nan)
    (hr : ∀ a, f a .nan = .nan) :
    ∀ (fs : List F64) (a : F64), (a = .nan ∨ F64.nan ∈ fs) → fs.foldl f a = .nan
  | [], a, h => by
    rcases h with h | h
    · simpa using h
    · simp at h
  | b :: fs, a, h => by
    simp only [List.foldl_cons]
    apply foldl_nan_absorbs f hl hr fs
    rcases h with h | h
    · left; rw [h, hl]
    · rcases List.mem_cons.mp h with h | h
      · left; rw [← h, hr]
      · right; exact h

theorem foldl_fminTwo_fin (qs : List ℚ) :
    ∀ a : ℚ, (qs.map F64.fin).foldl fminTwo (.fin a) = .fin (qs.foldl min a) := by
  induction qs with
  | nil => intro a; rfl
  | cons x qs ih =>
    intro a
    simpa [fminTwo] using ih (min a x)

theorem foldl_fmaxTwo_fin (qs : List ℚ) :
    ∀ a : ℚ, (qs.map F64.fin).foldl fmaxTwo (.fin a) = .fin (qs.foldl max a) := by
  induction qs with
  | nil => intro a; rfl
  | cons x qs ih =>
    intro a
    simpa [fmaxTwo] using ih (max a x)

/-- The fold of `min` is an element of the list and a lower bound of it. -/
theorem foldl_min_least (qs : List ℚ) :
    ∀ q : ℚ, qs.foldl min q ∈ q :: qs ∧ ∀ x ∈ q :: qs, qs.foldl min q ≤ x := by
  induction qs with
  | nil => intro q; simp
  | cons y qs ih =>
    intro q
    obtain ⟨hm, hl⟩ := ih (min q y)
    simp only [List.foldl_cons]
    constructor
    · rcases List.mem_cons.mp hm with h | h
      · rw [h]
        rcases min_choice q y with h2 | h2 <;> simp [h2]
      · simp [h]
    · intro x hx
      have h0 := hl (min q y) (by simp)
      rcases List.mem_cons.mp hx with h | h
      · rw [h]; exact le_trans h0 (min_le_left q y)
      · rcases List.mem_cons.mp h with h | h
        · rw [h]; exact le_trans h0 (min_le_right q y)
        · exact hl x (by simp [h])

/-- The fold of `max` is an element of the list and an upper bound of it. -/
theorem foldl_max_greatest (qs : List ℚ) :
    ∀ q : ℚ, qs.foldl max q ∈ q :: qs ∧ ∀ x ∈ q :: qs, x ≤ qs.foldl max q := by
  induction qs with
  | nil => intro q; simp
  | cons y qs ih =>
    intro q
    obtain ⟨hm, hl⟩ := ih (max q y)
    simp only [List.foldl_cons]
    constructor
    · rcases List.mem_cons.mp hm with h | h
      · rw [h]
        rcases max_choice q y with h2 | h2 <;> simp [h2]
      · simp [h]
    · intro x hx
      have h0 := hl (max q y) (by simp)
      rcases List.mem_cons.mp hx with h | h
      · rw [h]; exact le_trans (le_max_left q y) h0
      · rcases List.mem_cons.mp h with h | h
        · rw [h]; exact le_trans (le_max_right q y) h0
        · exact hl x (by simp [h])

/-- `Math.min` and `Math.max` of finite numbers are the least and the greatest. -/
theorem mathMin_mathMax_fin (q : ℚ) (qs : List ℚ) :
    mathMin ((q :: qs).map F64.fin) = .fin (qs.foldl min q) ∧
      mathMax ((q :: qs).map F64.fin) = .fin (qs.foldl max q) := by
  constructor
  · simp only [mathMin, List.map_cons, List.foldl_cons]
    exact foldl_fminTwo_fin qs q
  · simp only [mathMax, List.map_cons, List.foldl_cons]
    exact foldl_fmaxTwo_fin qs q

/-- An exact left-to-right sum is the sum of the values. -/
theorem foldl_fadd_of_exactSum :
    ∀ (fs : List F64) (a : ℚ), ExactSum a fs →
      fs.foldl fadd (.fin a) = .fin (a + (fs.map finValue).sum)
  | [], a, _ => by simp
  | f :: fs, a, h => by
    cases f with
    | fin x =>
      simp only [ExactSum] at h
      have ih := foldl_fadd_of_exactSum fs (a + x) h.2
      have hstep : fadd (.fin a) (.fin x) = .fin (a + x) := h.1
      simp only [List.foldl_cons, hstep, ih, List.map_cons, List.sum_cons, finValue, add_assoc]
    | nan => simp [ExactSum] at h
    | ninf => simp [ExactSum] at h
    | pinf => simp [ExactSum] at h

theorem fminTwo_right_comm (b a1 a2 : F64) :
    fminTwo (fminTwo b a1) a2 = fminTwo (fminTwo b a2) a1 := by
  cases b <;> cases a1 <;> cases a2 <;>
    first
      | rfl
      | exact congrArg F64.fin (min_right_comm _ _ _)
      | exact congrArg F64.fin (min_comm _ _)

theorem max_max_swap (x y z : ℚ) : max (max x y) z = max (max x z) y := by
  rw [max_assoc, max_assoc, max_comm y z]

theorem fmaxTwo_right_comm (b a1 a2 : F64) :
    fmaxTwo (fmaxTwo b a1) a2 = fmaxTwo (fmaxTwo b a2) a1 := by
  cases b <;> cases a1 <;> cases a2 <;>
    first
      | rfl
      | exact congrArg F64.fin (max_max_swap _ _ _)
      | exact congrArg F64.fin (max_comm _ _)

/-- `Math.min` and `Math.max` do not depend on the order of their arguments. -/
theorem mathMin_mathMax_perm {fs fs2 : List F64} (h : fs.Perm fs2) :
    mathMin fs2 = mathMin fs ∧ mathMax fs2 = mathMax fs := by
  haveI : RightCommutative fminTwo := ⟨fminTwo_right_comm⟩
  haveI : RightCommutative fmaxTwo := ⟨fmaxTwo_right_comm⟩
  exact ⟨(h.foldl_eq F64.pinf).symm, (h.foldl_eq F64.ninf).symm⟩

/-- When no partial sum is rounded the binary64 mean is the exact mean, rounded
once. -/
theorem binary64Mean_of_exactSum {fs : List F64} (h : ExactSum 0 fs) :
    binary64Mean fs = roundF64 ((fs.map finValue).sum / (fs.length : ℕ)) := by
  simp [binary64Mean, foldl_fadd_of_exactSum fs 0 h, fdivNat]

/-! ## Rounding to one decimal -/

theorem nearestTenths_bounds {x : ℚ} (hx : 0 ≤ x) :
    ((nearestTenths x : ℕ) : ℚ) ≤ x * 10 + 1 / 2 ∧
      x * 10 + 1 / 2 < ((nearestTenths x : ℕ) : ℚ) + 1 := by
  have h0 : (0 : ℤ) ≤ ⌊x * 10 + 1 / 2⌋ := Int.floor_nonneg.mpr (by positivity)
  have hc : ((nearestTenths x : ℕ) : ℚ) = ((⌊x * 10 + 1 / 2⌋ : ℤ) : ℚ) := by
    unfold nearestTenths
    rw [← Int.cast_natCast, Int.toNat_of_nonneg h0]
  rw [hc]
  exact ⟨Int.floor_le _, Int.lt_floor_add_one _⟩

theorem nearestTenths_eq {x : ℚ} {n : ℕ} (h1 : (n : ℚ) ≤ x * 10 + 1 / 2)
    (h2 : x * 10 + 1 / 2 < (n : ℚ) + 1) : nearestTenths x = n := by
  have h : ⌊x * 10 + 1 / 2⌋ = (n : ℤ) :=
    Int.floor_eq_iff.mpr ⟨by push_cast; exact h1, by push_cast; exact h2⟩
  unfold nearestTenths
  rw [h]
  simp

/-- The text of a non-negative value below 1e21, from the two bounds on its
count of tenths. -/
theorem toFixed1_pos {x : ℚ} {n : ℕ} (h0 : 0 ≤ x) (hbig : x < 10 ^ 21)
    (h1 : (n : ℚ) ≤ x * 10 + 1 / 2) (h2 : x * 10 + 1 / 2 < (n : ℚ) + 1) :
    toFixed1 (.fin x) = .fixed false n := by
  have hb : ¬ ((10 : ℚ) ^ 21 ≤ |x|) := by rw [abs_of_nonneg h0]; exact not_le.mpr hbig
  have hn : ¬ (x < 0) := not_lt.mpr h0
  simp only [toFixed1, hb, hn, if_false, nearestTenths_eq h1 h2]

/-- The text `toFixed(1)` gives for a value below 1e21 in magnitude spells a
whole number of tenths at distance at most one twentieth from the value: the
value rounded to one decimal. -/
theorem toFixed1_rounds (x : ℚ) (hx : |x| < 10 ^ 21) :
    ∃ r : ℚ, (toFixed1 (.fin x)).toNumber = .fin r ∧ |r - x| ≤ 1 / 20 ∧
      ∃ m : ℤ, r * 10 = m := by
  have hb : ¬ ((10 : ℚ) ^ 21 ≤ |x|) := not_le.mpr hx
  by_cases hneg : x < 0
  · obtain ⟨h1, h2⟩ := nearestTenths_bounds (x := -x) (by linarith)
    refine ⟨-((nearestTenths (-x) : ℕ) : ℚ) / 10, ?_, ?_, -((nearestTenths (-x) : ℕ) : ℤ), ?_⟩
    · simp [toFixed1, hb, hneg, StatVal.toNumber, neg_div]
    · rw [abs_le]
      constructor <;> linarith
    · push_cast
      ring
  · obtain ⟨h1, h2⟩ := nearestTenths_bounds (x := x) (by linarith)
    refine ⟨((nearestTenths x : ℕ) : ℚ) / 10, ?_, ?_, ((nearestTenths x : ℕ) : ℤ), ?_⟩
    · simp [toFixed1, hb, hneg, StatVal.toNumber]
    · rw [abs_le]
      constructor <;> linarith
    · push_cast
      ring

/-- A value below 1e21 in magnitude with at most one decimal is its own
rounding. -/
theorem toFixed1_exact_on_tenths (x : ℚ) (m : ℤ) (h : x * 10 = m) (hx : |x| < 10 ^ 21) :
    (toFixed1 (.fin x)).toNumber = .fin x := by
  have hb : ¬ ((10 : ℚ) ^ 21 ≤ |x|) := not_le.mpr hx
  by_cases hneg : x < 0
  · have hm : (0 : ℤ) ≤ -m := by
      have : (m : ℚ) < 0 := by rw [← h]; linarith
      have : m < 0 := by exact_mod_cast this
      omega
    have hc : (((-m).toNat : ℕ) : ℚ) = -(m : ℚ) := by
      rw [← Int.cast_natCast, Int.toNat_of_nonneg hm]
      push_cast
      ring
    have hn : nearestTenths (-x) = (-m).toNat := by
      apply nearestTenths_eq <;> rw [hc] <;> linarith
    simp only [toFixed1, hb, hneg, if_true, if_false, StatVal.toNumber, hn, hc]
    congr 1
    linarith
  · have hm : (0 : ℤ) ≤ m := by
      have : (0 : ℚ) ≤ (m : ℚ) := by rw [← h]; linarith
      exact_mod_cast this
    have hc : ((m.toNat : ℕ) : ℚ) = (m : ℚ) := by
      rw [← Int.cast_natCast, Int.toNat_of_nonneg hm]
    have hn : nearestTenths x = m.toNat := by
      apply nearestTenths_eq <;> rw [hc] <;> linarith
    simp only [toFixed1, hb, hneg, if_false, StatVal.toNumber, hn, hc]
    congr 1
    simp only [Bool.false_eq_true, if_false]
    linarith

/-! ## Binary64 values of the sample data -/

/-- The number 22 is a binary64 value. -/
theorem roundF64_22 : roundF64 (22 : ℚ) = .fin (22 : ℚ) :=
  roundF64_pos (4) (6192449487634432) (by norm_num) (by norm_num) (by norm_num)
    (roundHalfEven_of_near (by norm_num) (by norm_num))
    (by norm_num) (by norm_num)

/-- The number 25 is a binary64 value. -/
theorem roundF64_25 : roundF64 (25 : ℚ) = .fin (25 : ℚ) :=
  roundF64_pos (4) (7036874417766400) (by norm_num) (by norm_num) (by norm_num)
    (roundHalfEven_of_near (by norm_num) (by norm_num))
    (by norm_num) (by norm_num)

/-- The number 47 is a binary64 value. -/
theorem roundF64_47 : roundF64 (47 : ℚ) = .fin (47 : ℚ) :=
  roundF64_pos (5) (6614661952700416) (by norm_num) (by norm_num) (by norm_num)
    (roundHalfEven_of_near (by norm_num) (by norm_num))
    (by norm_num) (by norm_num)

/-- Binary64 `0 + 22`. -/
theorem fadd_0_22 : fadd (.fin 0) (.fin (22 : ℚ)) = .fin (22 : ℚ) := by
  show roundF64 ((0 : ℚ) + (22 : ℚ)) = _
  exact roundF64_pos (4) (6192449487634432) (by norm_num) (by norm_num) (by norm_num)
    (roundHalfEven_of_near (by norm_num) (by norm_num))
    (by norm_num) (by norm_num)

/-- Binary64 `22 + 25`. -/
theorem fadd_22_25 : fadd (.fin (22 : ℚ)) (.fin (25 : ℚ)) = .fin (47 : ℚ) := by
  show roundF64 ((22 : ℚ) + (25 : ℚ)) = _
  exact roundF64_pos (5) (6614661952700416) (by norm_num) (by norm_num) (by norm_num)
    (roundHalfEven_of_near (by norm_num) (by norm_num))
    (by norm_num) (by norm_num)

/-- Binary64 `47 / 2`. -/
theorem fdivNat_47_2 : fdivNat (.fin (47 : ℚ)) 2 = .fin ((47 : ℚ) / 2) := by
  show roundF64 ((47 : ℚ) / ((2 : ℕ) : ℚ)) = _
  exact roundF64_pos (4) (6614661952700416) (by norm_num) (by norm_num) (by norm_num)
    (roundHalfEven_of_near (by norm_num) (by norm_num))
    (by norm_num) (by norm_num)

/-- The binary64 value nearest to 22.46. -/
theorem roundF64_22_46 : roundF64 ((1123 : ℚ) / 50) = .fin ((3160963988460667 : ℚ) / 140737488355328) :=
  roundF64_pos (4) (6321927976921334) (by norm_num) (by norm_num) (by norm_num)
    (roundHalfEven_of_near (by norm_num) (by norm_num))
    (by norm_num) (by norm_num)

/-- Binary64 `0 + 22.46`. -/
theorem fadd_0_22_46 : fadd (.fin 0) (.fin ((3160963988460667 : ℚ) / 140737488355328)) = .fin ((3160963988460667 : ℚ) / 140737488355328) := by
  show roundF64 ((0 : ℚ) + ((3160963988460667 : ℚ) / 140737488355328)) = _
  exact roundF64_pos (4) (6321927976921334) (by norm_num) (by norm_num) (by norm_num)
    (roundHalfEven_of_near (by norm_num) (by norm_num))
    (by norm_num) (by norm_num)

/-- Binary64 `22.46 / 1`. -/
theorem fdivNat_22_46_1 : fdivNat (.fin ((3160963988460667 : ℚ) / 140737488355328)) 1 = .fin ((3160963988460667 : ℚ) / 140737488355328) := by
  show roundF64 (((3160963988460667 : ℚ) / 140737488355328) / ((1 : ℕ) : ℚ)) = _
  exact roundF64_pos (4) (6321927976921334) (by norm_num) (by norm_num) (by norm_num)
    (roundHalfEven_of_near (by norm_num) (by norm_num))
    (by norm_num) (by norm_num)

/-- The binary64 value nearest to 27.4. -/
theorem roundF64_27_4 : roundF64 ((137 : ℚ) / 5) = .fin ((3856207180935987 : ℚ) / 140737488355328) :=
  roundF64_pos (4) (7712414361871974) (by norm_num) (by norm_num) (by norm_num)
    (roundHalfEven_of_near (by norm_num) (by norm_num))
    (by norm_num) (by norm_num)

/-- The binary64 value nearest to 34.8. -/
theorem roundF64_34_8 : roundF64 ((174 : ℚ) / 5) = .fin ((2448832297382707 : ℚ) / 70368744177664) :=
  roundF64_pos (5) (4897664594765414) (by norm_num) (by norm_num) (by norm_num)
    (roundHalfEven_of_near (by norm_num) (by norm_num))
    (by norm_num) (by norm_num)

/-- The number 37.5 is a binary64 value. -/
theorem roundF64_37_5 : roundF64 ((75 : ℚ) / 2) = .fin ((75 : ℚ) / 2) :=
  roundF64_pos (5) (5277655813324800) (by norm_num) (by norm_num) (by norm_num)
    (roundHalfEven_of_near (by norm_num) (by norm_num))
    (by norm_num) (by norm_num)

/-- The binary64 value nearest to 26.9. -/
theorem roundF64_26_9 : roundF64 ((269 : ℚ) / 10) = .fin ((3785838436758323 : ℚ) / 140737488355328) :=
  roundF64_pos (4) (7571676873516646) (by norm_num) (by norm_num) (by norm_num)
    (roundHalfEven_of_near (by norm_num) (by norm_num))
    (by norm_num) (by norm_num)

/-- Binary64 `0 + 27.4`. -/
theorem fadd_0_27_4 : fadd (.fin 0) (.fin ((3856207180935987 : ℚ) / 140737488355328)) = .fin ((3856207180935987 : ℚ) / 140737488355328) := by
  show roundF64 ((0 : ℚ) + ((3856207180935987 : ℚ) / 140737488355328)) = _
  exact roundF64_pos (4) (7712414361871974) (by norm_num) (by norm_num) (by norm_num)
    (roundHalfEven_of_near (by norm_num) (by norm_num))
    (by norm_num) (by norm_num)

/-- Binary64 `27.4 + 34.8`. -/
theorem sumA_2 : fadd (.fin ((3856207180935987 : ℚ) / 140737488355328)) (.fin ((2448832297382707 : ℚ) / 70368744177664)) = .fin ((8753871775701401 : ℚ) / 140737488355328) := by
  show roundF64 (((3856207180935987 : ℚ) / 140737488355328) + ((2448832297382707 : ℚ) / 70368744177664)) = _
  exact roundF64_pos (5) (8753871775701401) (by norm_num) (by norm_num) (by norm_num)
    (roundHalfEven_of_near (by norm_num) (by norm_num))
    (by norm_num) (by norm_num)

/-- Binary64 `(27.4 + 34.8) + 37.5`. -/
theorem sumA_3 : fadd (.fin ((8753871775701401 : ℚ) / 140737488355328)) (.fin ((75 : ℚ) / 2)) = .fin ((1753940948628275 : ℚ) / 17592186044416) := by
  show roundF64 (((8753871775701401 : ℚ) / 140737488355328) + ((75 : ℚ) / 2)) = _
  exact roundF64_pos (6) (7015763794513100) (by norm_num) (by norm_num) (by norm_num)
    (roundHalfEven_of_tie (f := 7015763794513100) (by norm_num) (by decide))
    (by norm_num) (by norm_num)

/-- Binary64 `((27.4 + 34.8) + 37.5) + 26.9`. -/
theorem sumA_4 : fadd (.fin ((1753940948628275 : ℚ) / 17592186044416)) (.fin ((3785838436758323 : ℚ) / 140737488355328)) = .fin ((4454341506446131 : ℚ) / 35184372088832) := by
  show roundF64 (((1753940948628275 : ℚ) / 17592186044416) + ((3785838436758323 : ℚ) / 140737488355328)) = _
  exact roundF64_pos (6) (8908683012892262) (by norm_num) (by norm_num) (by norm_num)
    (roundHalfEven_of_tie (f := 8908683012892261) (by norm_num) (by decide))
    (by norm_num) (by norm_num)

/-- The first sum divided by 4. -/
theorem meanA : fdivNat (.fin ((4454341506446131 : ℚ) / 35184372088832)) 4 = .fin ((4454341506446131 : ℚ) / 140737488355328) := by
  show roundF64 (((4454341506446131 : ℚ) / 35184372088832) / ((4 : ℕ) : ℚ)) = _
  exact roundF64_pos (4) (8908683012892262) (by norm_num) (by norm_num) (by norm_num)
    (roundHalfEven_of_near (by norm_num) (by norm_num))
    (by norm_num) (by norm_num)

/-- Binary64 `27.4 + 37.5`. -/
theorem sumB_2 : fadd (.fin ((3856207180935987 : ℚ) / 140737488355328)) (.fin ((75 : ℚ) / 2)) = .fin ((2283465748565197 : ℚ) / 35184372088832) := by
  show roundF64 (((3856207180935987 : ℚ) / 140737488355328) + ((75 : ℚ) / 2)) = _
  exact roundF64_pos (6) (4566931497130394) (by norm_num) (by norm_num) (by norm_num)
    (roundHalfEven_of_tie (f := 4566931497130393) (by norm_num) (by decide))
    (by norm_num) (by norm_num)

/-- Binary64 `(27.4 + 37.5) + 26.9`. -/
theorem sumB_3 : fadd (.fin ((2283465748565197 : ℚ) / 35184372088832)) (.fin ((3785838436758323 : ℚ) / 140737488355328)) = .fin ((1614962678877389 : ℚ) / 17592186044416) := by
  show roundF64 (((2283465748565197 : ℚ) / 35184372088832) + ((3785838436758323 : ℚ) / 140737488355328)) = _
  exact roundF64_pos (6) (6459850715509556) (by norm_num) (by norm_num) (by norm_num)
    (roundHalfEven_of_tie (f := 6459850715509555) (by norm_num) (by decide))
    (by norm_num) (by norm_num)

/-- Binary64 `((27.4 + 37.5) + 26.9) + 34.8`. -/
theorem sumB_4 : fadd (.fin ((1614962678877389 : ℚ) / 17592186044416)) (.fin ((2448832297382707 : ℚ) / 70368744177664)) = .fin ((8908683012892263 : ℚ) / 70368744177664) := by
  show roundF64 (((1614962678877389 : ℚ) / 17592186044416) + ((2448832297382707 : ℚ) / 70368744177664)) = _
  exact roundF64_pos (6) (8908683012892263) (by norm_num) (by norm_num) (by norm_num)
    (roundHalfEven_of_near (by norm_num) (by norm_num))
    (by norm_num) (by norm_num)

/-- The second sum divided by 4. -/
theorem meanB : fdivNat (.fin ((8908683012892263 : ℚ) / 70368744177664)) 4 = .fin ((8908683012892263 : ℚ) / 281474976710656) := by
  show roundF64 (((8908683012892263 : ℚ) / 70368744177664) / ((4 : ℕ) : ℚ)) = _
  exact roundF64_pos (4) (8908683012892263) (by norm_num) (by norm_num) (by norm_num)
    (roundHalfEven_of_near (by norm_num) (by norm_num))
    (by norm_num) (by norm_num)

/-- A field number that is `NaN` (a missing field) makes the three statistics the
text NaN. -/
theorem calculateStats_of_nan (ops : StringOps) (data : List JVal) (field : Field)
    (hne : data ≠ [])
    (hplain : ∀ e ∈ data, isNullish e = false ∧ isPlain (frameField e field.key) = true)
    (hnan : F64.nan ∈ data.map (fun e => fieldNumber e field)) :
    calculateStats ops data field = .ok ⟨.nanText, .nanText, .nanText⟩ := by
  have h1 : (data.map (fun e => fieldNumber e field)).foldl fadd (.fin 0) = .nan :=
    foldl_nan_absorbs fadd fadd_nan_left fadd_nan_right _ _ (Or.inr hnan)
  have h2 : mathMin (data.map (fun e => fieldNumber e field)) = .nan :=
    foldl_nan_absorbs fminTwo fminTwo_nan_left fminTwo_nan_right _ _ (Or.inr hnan)
  have h3 : mathMax (data.map (fun e => fieldNumber e field)) = .nan :=
    foldl_nan_absorbs fmaxTwo fmaxTwo_nan_left fmaxTwo_nan_right _ _ (Or.inr hnan)
  rw [calculateStats_plain ops data field hne hplain, h2, h3]
  simp only [binary64Mean, h1]
  rfl

/-! ## C7: statistics of the empty sequence -/

/-- C7. For each of the three metric fields, `calculateStats` on the empty
sequence returns (it does not throw) the record of the three numbers `0`. -/
theorem calculateStats_empty (ops : StringOps) (field : Field) :
    calculateStats ops [] field = .ok ⟨.num 0, .num 0, .num 0⟩ ∧
      calculateStats ops [] .temperature = .ok ⟨.num 0, .num 0, .num 0⟩ ∧
      calculateStats ops [] .humidity = .ok ⟨.num 0, .num 0, .num 0⟩ ∧
      calculateStats ops [] .lightLevel = .ok ⟨.num 0, .num 0, .num 0⟩ :=
  ⟨rfl, rfl, rfl, rfl⟩

/-! ## C8: statistics of a non-empty sequence -/

/-- C8 as stated fails for `min` and `max`: on the single reading with
temperature 22.46 the record is the texts 22.5, 22.5, 22.5, so `min` and `max`
denote 22.5 and not the least and greatest field value (22.46, read as the
nearest binary64 number) itself. -/
theorem min_max_are_rounded :
    calculateStats plainOps twoDecimalsView .temperature
        = .ok ⟨.fixed false 225, .fixed false 225, .fixed false 225⟩ ∧
      twoDecimalsView.map (fun e => fieldNumber e .temperature) = [.fin ((3160963988460667 : ℚ) / 140737488355328)] ∧
      (StatVal.fixed false 225).text plainOps = "22.5" ∧
      (StatVal.fixed false 225).toNumber = .fin (45 / 2) ∧
      ¬ ∃ st : Stats, calculateStats plainOps twoDecimalsView .temperature = .ok st ∧
        st.min.toNumber = .fin ((3160963988460667 : ℚ) / 140737488355328) ∧
        st.max.toNumber = .fin ((3160963988460667 : ℚ) / 140737488355328) := by
  have hfs : twoDecimalsView.map (fun e => fieldNumber e .temperature) = [.fin ((3160963988460667 : ℚ) / 140737488355328)] := by
    show [roundF64 ((1123 : ℚ) / 50)] = _
    rw [roundF64_22_46]
  have hmean : binary64Mean [.fin ((3160963988460667 : ℚ) / 140737488355328)] = .fin ((3160963988460667 : ℚ) / 140737488355328) := by
    show fdivNat (fadd (.fin 0) (.fin ((3160963988460667 : ℚ) / 140737488355328))) 1 = _
    rw [fadd_0_22_46, fdivNat_22_46_1]
  have hmm := mathMin_mathMax_fin ((3160963988460667 : ℚ) / 140737488355328) []
  simp only [List.map_cons, List.map_nil, List.foldl_nil] at hmm
  have hr : toFixed1 (.fin ((3160963988460667 : ℚ) / 140737488355328)) = .fixed false 225 :=
    toFixed1_pos (by norm_num) (by norm_num) (by norm_num) (by norm_num)
  have hc : calculateStats plainOps twoDecimalsView .temperature
      = .ok ⟨.fixed false 225, .fixed false 225, .fixed false 225⟩ := by
    rw [calculateStats_plain plainOps twoDecimalsView .temperature (by simp [twoDecimalsView])
      (by
        intro e he
        simp only [twoDecimalsView, List.mem_singleton] at he
        rw [he]
        exact ⟨rfl, rfl⟩)]
    rw [hfs, hmean, hmm.1, hmm.2, hr]
  have hv : (StatVal.fixed false 225).toNumber = .fin (45 / 2) := by
    simp [StatVal.toNumber]
    norm_num
  refine ⟨hc, hfs, rfl, hv, ?_⟩
  rintro ⟨st, hst, hmin, _⟩
  rw [hc] at hst
  cases hst
  rw [hv] at hmin
  simp only [F64.fin.injEq] at hmin
  norm_num at hmin

/-- C8 amended. On a non-empty sequence of readings whose field values are plain
(numbers, or a missing or `null` field), `calculateStats` returns the three
`toFixed(1)` texts of the binary64 mean of the field numbers (their left-to-right
binary64 sum divided in binary64 by their count: the exact mean rounded once
when no partial sum is rounded), of their minimum and of their maximum.  With
finite field numbers the minimum and maximum are the least and the greatest of
them; `toFixed(1)` rounds each of the three to one decimal place (a whole number
of tenths within one twentieth of the value, the value itself when it has at
most one decimal); when a reading misses the field all three are the text NaN. -/
theorem calculateStats_rounds_mean_min_max (ops : StringOps) (data : List JVal)
    (field : Field) (hne : data ≠ [])
    (hplain : ∀ e ∈ data, isNullish e = false ∧ isPlain (frameField e field.key) = true) :
    calculateStats ops data field = .ok
        ⟨toFixed1 (binary64Mean (data.map (fun e => fieldNumber e field))),
         toFixed1 (mathMin (data.map (fun e => fieldNumber e field))),
         toFixed1 (mathMax (data.map (fun e => fieldNumber e field)))⟩ ∧
      (ExactSum 0 (data.map (fun e => fieldNumber e field)) →
        binary64Mean (data.map (fun e => fieldNumber e field)) =
          roundF64 (((data.map (fun e => fieldNumber e field)).map finValue).sum
            / (data.length : ℕ))) ∧
      (∀ xs : List ℚ, data.map (fun e => fieldNumber e field) = xs.map F64.fin →
        ∃ lo hi : ℚ, (lo ∈ xs ∧ ∀ x ∈ xs, lo ≤ x) ∧ (hi ∈ xs ∧ ∀ x ∈ xs, x ≤ hi) ∧
          mathMin (data.map (fun e => fieldNumber e field)) = .fin lo ∧
          mathMax (data.map (fun e => fieldNumber e field)) = .fin hi) ∧
      (F64.nan ∈ data.map (fun e => fieldNumber e field) →
        calculateStats ops data field = .ok ⟨.nanText, .nanText, .nanText⟩) ∧
      (∀ x : ℚ, |x| < 10 ^ 21 →
        ∃ r : ℚ, (toFixed1 (.fin x)).toNumber = .fin r ∧ |r - x| ≤ 1 / 20 ∧
          ∃ m : ℤ, r * 10 = m) ∧
      (∀ (x : ℚ) (m : ℤ), x * 10 = m → |x| < 10 ^ 21 →
        (toFixed1 (.fin x)).toNumber = .fin x) := by
  have hc := calculateStats_plain ops data field hne hplain
  refine ⟨hc, ?_, ?_, ?_, toFixed1_rounds, toFixed1_exact_on_tenths⟩
  · intro hex
    have h := binary64Mean_of_exactSum hex
    simpa using h
  · intro xs hxs
    cases xs with
    | nil =>
      cases data with
      | nil => exact absurd rfl hne
      | cons e es => simp at hxs
    | cons q qs =>
      rw [hxs]
      exact ⟨qs.foldl min q, qs.foldl max q, foldl_min_least qs q, foldl_max_greatest qs q,
        (mathMin_mathMax_fin q qs).1, (mathMin_mathMax_fin q qs).2⟩
  · exact calculateStats_of_nan ops data field hne hplain

/-- C8 amended, at the scenario of section 8: the window 150..300 keeps the last
two readings, and their temperature statistics are the texts 23.5, 22.0 and 25.0,
which denote 23.5, 22 and 25. -/
theorem calculateStats_rounds_mean_min_max_witness :
    (scenarioView ≠ [] ∧
      ∀ e ∈ scenarioView,
        isNullish e = false ∧ isPlain (frameField e Field.temperature.key) = true) ∧
    (calculateStats plainOps scenarioView .temperature = .ok
        ⟨toFixed1 (binary64Mean (scenarioView.map (fun e => fieldNumber e .temperature))),
         toFixed1 (mathMin (scenarioView.map (fun e => fieldNumber e .temperature))),
         toFixed1 (mathMax (scenarioView.map (fun e => fieldNumber e .temperature)))⟩ ∧
      (ExactSum 0 (scenarioView.map (fun e => fieldNumber e .temperature)) →
        binary64Mean (scenarioView.map (fun e => fieldNumber e .temperature)) =
          roundF64 (((scenarioView.map (fun e => fieldNumber e .temperature)).map finValue).sum
            / (scenarioView.length : ℕ))) ∧
      (∀ xs : List ℚ, scenarioView.map (fun e => fieldNumber e .temperature) = xs.map F64.fin →
        ∃ lo hi : ℚ, (lo ∈ xs ∧ ∀ x ∈ xs, lo ≤ x) ∧ (hi ∈ xs ∧ ∀ x ∈ xs, x ≤ hi) ∧
          mathMin (scenarioView.map (fun e => fieldNumber e .temperature)) = .fin lo ∧
          mathMax (scenarioView.map (fun e => fieldNumber e .temperature)) = .fin hi) ∧
      (F64.nan ∈ scenarioView.map (fun e => fieldNumber e .temperature) →
        calculateStats plainOps scenarioView .temperature
          = .ok ⟨.nanText, .nanText, .nanText⟩) ∧
      (∀ x : ℚ, |x| < 10 ^ 21 →
        ∃ r : ℚ, (toFixed1 (.fin x)).toNumber = .fin r ∧ |r - x| ≤ 1 / 20 ∧
          ∃ m : ℤ, r * 10 = m) ∧
      (∀ (x : ℚ) (m : ℤ), x * 10 = m → |x| < 10 ^ 21 →
        (toFixed1 (.fin x)).toNumber = .fin x)) ∧
    filterData noParse (initialState 0 0) (.arr scenarioHistory) (some 150) (some 300)
      = .ok { initialState 0 0 with filteredHistory := scenarioView } ∧
    calculateStats plainOps scenarioView .temperature
      = .ok ⟨.fixed false 235, .fixed false 220, .fixed false 250⟩ ∧
    (StatVal.fixed false 235).text plainOps = "23.5" ∧
    (StatVal.fixed false 220).text plainOps = "22.0" ∧
    (StatVal.fixed false 250).text plainOps = "25.0" ∧
    (StatVal.fixed false 235).toNumber = .fin (47 / 2) ∧
    (StatVal.fixed false 220).toNumber = .fin 22 ∧
    (StatVal.fixed false 250).toNumber = .fin 25 := by
  have hne : scenarioView ≠ [] := by simp [scenarioView]
  have hplain : ∀ e ∈ scenarioView,
      isNullish e = false ∧ isPlain (frameField e Field.temperature.key) = true := by
    intro e he
    simp only [scenarioView, List.mem_cons, List.mem_singleton, List.mem_nil_iff,
      or_false] at he
    rcases he with h | h <;> rw [h] <;> exact ⟨rfl, rfl⟩
  refine ⟨⟨hne, hplain⟩,
    calculateStats_rounds_mean_min_max plainOps scenarioView .temperature hne hplain,
    rfl, ?_, rfl, rfl, rfl, ?_, ?_, ?_⟩
  · have hfs : scenarioView.map (fun e => fieldNumber e .temperature)
        = [.fin 22, .fin 25] := by
      show [roundF64 (22 : ℚ), roundF64 (25 : ℚ)] = _
      rw [roundF64_22, roundF64_25]
    have hmean : binary64Mean [.fin (22 : ℚ), .fin (25 : ℚ)] = .fin ((47 : ℚ) / 2) := by
      show fdivNat (fadd (fadd (.fin 0) (.fin (22 : ℚ))) (.fin (25 : ℚ))) 2 = _
      rw [fadd_0_22, fadd_22_25, fdivNat_47_2]
    have hmm := mathMin_mathMax_fin 22 [25]
    have hmin : List.foldl min (22 : ℚ) [25] = 22 := by norm_num [List.foldl]
    have hmax : List.foldl max (22 : ℚ) [25] = 25 := by norm_num [List.foldl]
    rw [hmin, hmax] at hmm
    simp only [List.map_cons, List.map_nil] at hmm
    have h1 : toFixed1 (.fin ((47 : ℚ) / 2)) = .fixed false 235 :=
      toFixed1_pos (by norm_num) (by norm_num) (by norm_num) (by norm_num)
    have h2 : toFixed1 (.fin (22 : ℚ)) = .fixed false 220 :=
      toFixed1_pos (by norm_num) (by norm_num) (by norm_num) (by norm_num)
    have h3 : toFixed1 (.fin (25 : ℚ)) = .fixed false 250 :=
      toFixed1_pos (by norm_num) (by norm_num) (by norm_num) (by norm_num)
    rw [calculateStats_plain plainOps scenarioView .temperature hne hplain, hfs, hmean,
      hmm.1, hmm.2, h1, h2, h3]
  · simp [StatVal.toNumber]; norm_num
  · simp [StatVal.toNumber]; norm_num
  · simp [StatVal.toNumber]; norm_num

/-- A reading without the field: the three statistics are the text NaN. -/
theorem missing_metric_gives_nan :
    calculateStats plainOps [readingNoTemperature] .temperature
      = .ok ⟨.nanText, .nanText, .nanText⟩ :=
  calculateStats_of_nan plainOps [readingNoTemperature] .temperature
    (by simp) (by
      intro e he
      simp only [List.mem_singleton] at he
      rw [he]
      exact ⟨rfl, rfl⟩) (by
        show F64.nan ∈ [F64.nan]
        simp)

/-! ## C9: reordering the input -/

theorem orderA_numbers :
    orderA.map (fun e => fieldNumber e .temperature)
      = [.fin ((3856207180935987 : ℚ) / 140737488355328), .fin ((2448832297382707 : ℚ) / 70368744177664), .fin ((75 : ℚ) / 2), .fin ((3785838436758323 : ℚ) / 140737488355328)] := by
  show [roundF64 ((137 : ℚ) / 5), roundF64 ((174 : ℚ) / 5), roundF64 ((75 : ℚ) / 2),
    roundF64 ((269 : ℚ) / 10)] = _
  rw [roundF64_27_4, roundF64_34_8, roundF64_37_5, roundF64_26_9]

theorem orderB_numbers :
    orderB.map (fun e => fieldNumber e .temperature)
      = [.fin ((3856207180935987 : ℚ) / 140737488355328), .fin ((75 : ℚ) / 2), .fin ((3785838436758323 : ℚ) / 140737488355328), .fin ((2448832297382707 : ℚ) / 70368744177664)] := by
  show [roundF64 ((137 : ℚ) / 5), roundF64 ((75 : ℚ) / 2), roundF64 ((269 : ℚ) / 10),
    roundF64 ((174 : ℚ) / 5)] = _
  rw [roundF64_27_4, roundF64_34_8, roundF64_37_5, roundF64_26_9]

theorem orderA_plain : orderA ≠ [] ∧ ∀ e ∈ orderA,
    isNullish e = false ∧ isPlain (frameField e Field.temperature.key) = true := by
  refine ⟨by simp [orderA], ?_⟩
  intro e he
  simp only [orderA, List.mem_cons, List.mem_singleton, List.mem_nil_iff, or_false] at he
  rcases he with h | h | h | h <;> rw [h] <;> exact ⟨rfl, rfl⟩

theorem orderB_plain : orderB ≠ [] ∧ ∀ e ∈ orderB,
    isNullish e = false ∧ isPlain (frameField e Field.temperature.key) = true := by
  refine ⟨by simp [orderB], ?_⟩
  intro e he
  simp only [orderB, List.mem_cons, List.mem_singleton, List.mem_nil_iff, or_false] at he
  rcases he with h | h | h | h <;> rw [h] <;> exact ⟨rfl, rfl⟩

/-- C9 as stated fails on the code: the temperatures 27.4, 34.8, 37.5, 26.9 give
the `avg` text 31.6, and the same readings in the order 27.4, 37.5, 26.9, 34.8
give 31.7: the binary64 sums are 126.6 and 126.60000000000001, and a quarter of
them falls on either side of 31.65. -/
theorem avg_depends_on_order :
    orderA.Perm orderB ∧
      (∃ st : Stats, calculateStats plainOps orderA .temperature = .ok st ∧
        st.avg = .fixed false 316) ∧
      (∃ st : Stats, calculateStats plainOps orderB .temperature = .ok st ∧
        st.avg = .fixed false 317) ∧
      (StatVal.fixed false 316).text plainOps = "31.6" ∧
      (StatVal.fixed false 317).text plainOps = "31.7" ∧
      ¬ ∃ st st2 : Stats, calculateStats plainOps orderA .temperature = .ok st ∧
        calculateStats plainOps orderB .temperature = .ok st2 ∧ st2.avg = st.avg := by
  have hperm : orderA.Perm orderB :=
    List.Perm.cons _ (@List.perm_append_comm JVal [reading 200 (174 / 5) 40 5]
      [reading 300 (75 / 2) 40 5, reading 400 (269 / 10) 40 5])
  have hmA : binary64Mean [.fin ((3856207180935987 : ℚ) / 140737488355328), .fin ((2448832297382707 : ℚ) / 70368744177664), .fin ((75 : ℚ) / 2), .fin ((3785838436758323 : ℚ) / 140737488355328)] = .fin ((4454341506446131 : ℚ) / 140737488355328) := by
    show fdivNat (fadd (fadd (fadd (fadd (.fin 0) (.fin ((3856207180935987 : ℚ) / 140737488355328))) (.fin ((2448832297382707 : ℚ) / 70368744177664))) (.fin ((75 : ℚ) / 2)))
      (.fin ((3785838436758323 : ℚ) / 140737488355328))) 4 = _
    rw [fadd_0_27_4, sumA_2, sumA_3, sumA_4, meanA]
  have hmB : binary64Mean [.fin ((3856207180935987 : ℚ) / 140737488355328), .fin ((75 : ℚ) / 2), .fin ((3785838436758323 : ℚ) / 140737488355328), .fin ((2448832297382707 : ℚ) / 70368744177664)] = .fin ((8908683012892263 : ℚ) / 281474976710656) := by
    show fdivNat (fadd (fadd (fadd (fadd (.fin 0) (.fin ((3856207180935987 : ℚ) / 140737488355328))) (.fin ((75 : ℚ) / 2))) (.fin ((3785838436758323 : ℚ) / 140737488355328)))
      (.fin ((2448832297382707 : ℚ) / 70368744177664))) 4 = _
    rw [fadd_0_27_4, sumB_2, sumB_3, sumB_4, meanB]
  have hfA : toFixed1 (.fin ((4454341506446131 : ℚ) / 140737488355328)) = .fixed false 316 :=
    toFixed1_pos (by norm_num) (by norm_num) (by norm_num) (by norm_num)
  have hfB : toFixed1 (.fin ((8908683012892263 : ℚ) / 281474976710656)) = .fixed false 317 :=
    toFixed1_pos (by norm_num) (by norm_num) (by norm_num) (by norm_num)
  have hA := calculateStats_plain plainOps orderA .temperature orderA_plain.1 orderA_plain.2
  have hB := calculateStats_plain plainOps orderB .temperature orderB_plain.1 orderB_plain.2
  rw [orderA_numbers, hmA, hfA] at hA
  rw [orderB_numbers, hmB, hfB] at hB
  refine ⟨hperm, ⟨_, hA, rfl⟩, ⟨_, hB, rfl⟩, rfl, rfl, ?_⟩
  rintro ⟨st, st2, h1, h2, h3⟩
  rw [hA] at h1
  rw [hB] at h2
  cases h1
  cases h2
  simp at h3

/-- C9 amended. On readings whose field values are plain, `calculateStats`
returns a record on a sequence and on every permutation of it, with the same
`min` and the same `max`; the `avg` is the same as well when the left-to-right
binary64 sum is exact in both orders (no partial sum is rounded).  It is not the
same in general, the binary64 sum depending on the order. -/
theorem calculateStats_perm (ops : StringOps) (data data2 : List JVal) (field : Field)
    (hp : data.Perm data2)
    (hplain : ∀ e ∈ data, isNullish e = false ∧ isPlain (frameField e field.key) = true) :
    ∃ st st2 : Stats, calculateStats ops data field = .ok st ∧
      calculateStats ops data2 field = .ok st2 ∧
      st2.min = st.min ∧ st2.max = st.max ∧
      (ExactSum 0 (data.map (fun e => fieldNumber e field)) →
        ExactSum 0 (data2.map (fun e => fieldNumber e field)) → st2.avg = st.avg) := by
  have hplain2 : ∀ e ∈ data2,
      isNullish e = false ∧ isPlain (frameField e field.key) = true :=
    fun e he => hplain e (hp.mem_iff.mpr he)
  cases data with
  | nil =>
    have h2 : data2 = [] := List.Perm.eq_nil hp.symm
    subst h2
    exact ⟨_, _, rfl, rfl, rfl, rfl, fun _ _ => rfl⟩
  | cons e es =>
    have hne2 : data2 ≠ [] := by
      intro h
      rw [h] at hp
      exact absurd (List.Perm.eq_nil hp) (by simp)
    have hA := calculateStats_plain ops (e :: es) field (by simp) hplain
    have hB := calculateStats_plain ops data2 field hne2 hplain2
    have hpf : ((e :: es).map (fun e => fieldNumber e field)).Perm
        (data2.map (fun e => fieldNumber e field)) := hp.map _
    obtain ⟨hmin, hmax⟩ := mathMin_mathMax_perm hpf
    refine ⟨_, _, hA, hB, ?_, ?_, ?_⟩
    · show toFixed1 _ = toFixed1 _
      rw [hmin]
    · show toFixed1 _ = toFixed1 _
      rw [hmax]
    · intro hex hex2
      show toFixed1 _ = toFixed1 _
      rw [binary64Mean_of_exactSum hex, binary64Mean_of_exactSum hex2,
        (hpf.map finValue).sum_eq, hpf.length_eq]

/-- C9 amended, at the scenario view (22, 25) and its reversal: both sums are
exact, and the two records are the same. -/
theorem calculateStats_perm_witness :
    (scenarioView.Perm scenarioView.reverse ∧
      ∀ e ∈ scenarioView,
        isNullish e = false ∧ isPlain (frameField e Field.temperature.key) = true) ∧
    ExactSum 0 (scenarioView.map (fun e => fieldNumber e .temperature)) ∧
    ExactSum 0 (scenarioView.reverse.map (fun e => fieldNumber e .temperature)) ∧
    ∃ st st2 : Stats, calculateStats plainOps scenarioView .temperature = .ok st ∧
      calculateStats plainOps scenarioView.reverse .temperature = .ok st2 ∧
      st2.min = st.min ∧ st2.max = st.max ∧ st2.avg = st.avg := by
  have hplain : ∀ e ∈ scenarioView,
      isNullish e = false ∧ isPlain (frameField e Field.temperature.key) = true := by
    intro e he
    simp only [scenarioView, List.mem_cons, List.mem_singleton, List.mem_nil_iff,
      or_false] at he
    rcases he with h | h <;> rw [h] <;> exact ⟨rfl, rfl⟩
  have hperm : scenarioView.Perm scenarioView.reverse := (List.reverse_perm scenarioView).symm
  have hfs : scenarioView.map (fun e => fieldNumber e .temperature)
      = [.fin 22, .fin 25] := by
    show [roundF64 (22 : ℚ), roundF64 (25 : ℚ)] = _
    rw [roundF64_22, roundF64_25]
  have hfs2 : scenarioView.reverse.map (fun e => fieldNumber e .temperature)
      = [.fin 25, .fin 22] := by
    show [roundF64 (25 : ℚ), roundF64 (22 : ℚ)] = _
    rw [roundF64_22, roundF64_25]
  have hex : ExactSum 0 (scenarioView.map (fun e => fieldNumber e .temperature)) := by
    rw [hfs]
    have e1 : (0 : ℚ) + 22 = 22 := by norm_num
    have e2 : (22 : ℚ) + 25 = 47 := by norm_num
    simp only [ExactSum, e1, e2]
    exact ⟨roundF64_22, roundF64_47, trivial⟩
  have hex2 : ExactSum 0 (scenarioView.reverse.map (fun e => fieldNumber e .temperature)) := by
    rw [hfs2]
    have e1 : (0 : ℚ) + 25 = 25 := by norm_num
    have e2 : (25 : ℚ) + 22 = 47 := by norm_num
    simp only [ExactSum, e1, e2]
    exact ⟨roundF64_25, roundF64_47, trivial⟩
  obtain ⟨st, st2, h1, h2, h3, h4, h5⟩ :=
    calculateStats_perm plainOps scenarioView scenarioView.reverse .temperature hperm hplain
  exact ⟨⟨hperm, hplain⟩, hex, hex2, st, st2, h1, h2, h3, h4, h5 hex hex2⟩

end IotReact
